import Mathlib

/-!
# Verification of the weather-plugin query-orchestration core

Shallow embedding, in Lean 4, of the core of the `astrbot_plugin_tianqi`
weather plugin (command parser, circuit breaker, retry policy, cache key
generation, data validator/sanitizer, provider-payload conversion and the
query orchestrators), together with proofs and refutations of the frozen
claims about its specification.

Python strings are modelled as `List Char`; Python `float` values that the
code only compares, clamps and averages are modelled as `Rat` (these
operations are exact on the floats the code manipulates); Python `int` is
`Int` (arbitrary precision, like Python); fallible constructors and
conversions return `Except`.

The file is organised as definitions first (faithful to the Python source,
file by file), then the theorems.
-/

namespace Tianqi

/-! ## String primitives (models of the Python `str` operations used) -/

/-- Model of Python `str.isspace` membership for the whitespace characters
`str.strip()` removes (ASCII whitespace suffices for the texts involved). -/
def pyIsSpace (c : Char) : Bool :=
  c = ' ' || c = '\t' || c = '\n' || c = '\r' || c = '\x0b' || c = '\x0c'

/-- Model of Python `str.lower()` (ASCII case folding; the keyword tables the
code compares against are ASCII). -/
def pyLower (s : List Char) : List Char :=
  s.map Char.toLower

/-- Leading-whitespace removal, first half of Python `str.strip()`. -/
def lstripWs (s : List Char) : List Char :=
  s.dropWhile pyIsSpace

/-- Trailing-whitespace removal, second half of Python `str.strip()`. -/
def rstripWs (s : List Char) : List Char :=
  (s.reverse.dropWhile pyIsSpace).reverse

/-- Model of Python `str.strip()`. -/
def pyStrip (s : List Char) : List Char :=
  rstripWs (lstripWs s)

/-- Predicate for a string that is empty or whitespace-only (Python
`not message or not message.strip()`). -/
def isBlank (s : List Char) : Bool :=
  (pyStrip s).isEmpty

/-- `strStarts hay needle`: `hay` begins with `needle`. -/
def strStarts : List Char → List Char → Bool
  | _, [] => true
  | [], _ :: _ => false
  | c :: cs, d :: ds => c = d && strStarts cs ds

/-- `strHas hay needle`: model of Python `needle in hay` on strings. -/
def strHas : List Char → List Char → Bool
  | [], needle => needle.isEmpty
  | c :: cs, needle => strStarts (c :: cs) needle || strHas cs needle

/-- Scanner for `re.findall(r'\d+', text)` followed by `int(...)`: walks the
characters, accumulating the value of the current maximal digit run. -/
def extractNumsAux : List Char → Option Nat → List Nat
  | [], none => []
  | [], some acc => [acc]
  | c :: cs, none =>
    if c.isDigit then extractNumsAux cs (some (c.toNat - 48))
    else extractNumsAux cs none
  | c :: cs, some acc =>
    if c.isDigit then extractNumsAux cs (some (acc * 10 + (c.toNat - 48)))
    else acc :: extractNumsAux cs none

/-- Model of `[int(m) for m in re.findall(r'\d+', text)]`: the maximal digit
runs of the text, in order, as numbers. -/
def extractNums (text : List Char) : List Nat :=
  extractNumsAux text none

/-! ## Generic insertion sort (used for sorted cache-key parameters and for
`sorted(daily_data.keys())` in the forecast conversion) -/

/-- Insert into a list sorted by the boolean relation `le`, keeping the new
element after existing elements it does not strictly precede (stable). -/
def insertLe {α : Type _} (le : α → α → Bool) (a : α) : List α → List α
  | [] => [a]
  | b :: l => if le a b then a :: b :: l else b :: insertLe le a l

/-- Insertion sort by the boolean relation `le`; models Python `sorted`. -/
def sortLe {α : Type _} (le : α → α → Bool) : List α → List α
  | [] => []
  | a :: l => insertLe le a (sortLe le l)

/-- Body of `fsDedup`, carrying the elements already seen. -/
def fsDedupAux {α : Type _} [DecidableEq α] : List α → List α → List α
  | [], _ => []
  | a :: l, seen =>
    if a ∈ seen then fsDedupAux l seen else a :: fsDedupAux l (a :: seen)

/-- First-seen deduplication: the distinct elements of a list in order of
first occurrence (iteration order of the keys of a Python dict built by
insertion). -/
def fsDedup {α : Type _} [DecidableEq α] (l : List α) : List α :=
  fsDedupAux l []

/-- Model of Python `max(iterable, key=key)`: the first element of the
iteration attaining the maximal key (later elements replace the current
maximum only when strictly greater). -/
def pyMaxBy {α : Type _} (key : α → Nat) : List α → Option α
  | [] => none
  | a :: l => some (l.foldl (fun cur x => if key cur < key x then x else cur) a)

/-! ## Data model (`weather_plugin/models.py`)

The Python dataclasses are mutable records whose `__post_init__` range
checks run at construction time only.  We therefore model the record as a
plain structure and the dataclass constructor as a separate fallible
smart constructor. -/

/-- Field layout of the `WeatherData` dataclass.  `timestamp` plays no role
in any claim and is modelled as an integer tag. -/
structure WeatherData where
  location : List Char
  temperature : Rat
  feelsLike : Rat
  humidity : Int
  windSpeed : Rat
  windDirection : Int
  pressure : Rat
  visibility : Rat
  uvIndex : Rat
  condition : List Char
  conditionCode : List Char
  timestamp : Int
  units : List Char
deriving Repr, DecidableEq

/-- Model of the `WeatherData(...)` dataclass constructor: `__post_init__`
raises `ValueError` when `humidity ∉ [0,100]`, `wind_speed < 0` or
`wind_direction ∉ [0,360]`. -/
def mkWeatherData (location : List Char) (temperature feelsLike : Rat)
    (humidity : Int) (windSpeed : Rat) (windDirection : Int)
    (pressure visibility uvIndex : Rat) (condition conditionCode : List Char)
    (timestamp : Int) (units : List Char) : Except (List Char) WeatherData :=
  if 0 ≤ humidity ∧ humidity ≤ 100 then
    if windSpeed < 0 then
      .error ('风' :: '速' :: [])
    else if 0 ≤ windDirection ∧ windDirection ≤ 360 then
      .ok { location := location, temperature := temperature,
            feelsLike := feelsLike, humidity := humidity,
            windSpeed := windSpeed, windDirection := windDirection,
            pressure := pressure, visibility := visibility,
            uvIndex := uvIndex, condition := condition,
            conditionCode := conditionCode, timestamp := timestamp,
            units := units }
    else
      .error ('风' :: '向' :: [])
  else
    .error ('湿' :: '度' :: [])

/-- Field layout of the `ForecastDay` dataclass. -/
structure ForecastDay where
  date : Int
  highTemp : Rat
  lowTemp : Rat
  condition : List Char
  precipitationChance : Int
  windSpeed : Rat
  humidity : Int
deriving Repr, DecidableEq

/-- Model of the `ForecastDay(...)` dataclass constructor: `__post_init__`
raises `ValueError` when `high_temp < low_temp` or
`precipitation_chance ∉ [0,100]`. -/
def mkForecastDay (date : Int) (highTemp lowTemp : Rat) (condition : List Char)
    (precipitationChance : Int) (windSpeed : Rat) (humidity : Int) :
    Except (List Char) ForecastDay :=
  if highTemp < lowTemp then
    .error ('温' :: '度' :: [])
  else if 0 ≤ precipitationChance ∧ precipitationChance ≤ 100 then
    .ok { date := date, highTemp := highTemp, lowTemp := lowTemp,
          condition := condition, precipitationChance := precipitationChance,
          windSpeed := windSpeed, humidity := humidity }
  else
    .error ('降' :: '水' :: [])

/-- Field layout of the `ForecastData` dataclass (no `__post_init__`). -/
structure ForecastData where
  location : List Char
  days : List ForecastDay
  units : List Char
  generatedAt : Int
deriving Repr, DecidableEq

/-! ## Validator and sanitizer (`weather_service.py`) -/

/-- Model of `WeatherService._validate_weather_data`: temperature in
`[-100,60]`, humidity in `[0,100]`, wind speed in `[0,500]`, pressure in
`[800,1100]`, and location/condition non-empty. -/
def validateWeatherData (w : WeatherData) : Bool :=
  decide (-100 ≤ w.temperature ∧ w.temperature ≤ 60) &&
  decide (0 ≤ w.humidity ∧ w.humidity ≤ 100) &&
  !(decide (w.windSpeed < 0) || decide (w.windSpeed > 500)) &&
  decide (800 ≤ w.pressure ∧ w.pressure ≤ 1100) &&
  !(w.location.isEmpty || w.condition.isEmpty)

/-- Model of `WeatherService._sanitize_weather_data`: clamp the numeric
fields, reduce the wind direction modulo 360, strip the text fields. -/
def sanitizeWeatherData (w : WeatherData) : WeatherData :=
  { w with
    temperature :=
      if w.temperature < -100 then -100
      else if w.temperature > 60 then 60
      else w.temperature
    humidity :=
      if w.humidity < 0 then 0
      else if w.humidity > 100 then 100
      else w.humidity
    windSpeed :=
      if w.windSpeed < 0 then 0
      else if w.windSpeed > 500 then 500
      else w.windSpeed
    pressure :=
      if w.pressure < 800 then 800
      else if w.pressure > 1100 then 1100
      else w.pressure
    windDirection := w.windDirection % 360
    location := if w.location.isEmpty then w.location else pyStrip w.location
    condition := if w.condition.isEmpty then w.condition else pyStrip w.condition }

/-! ## Circuit breaker (`weather_service.py`, class `CircuitBreaker`)

Wall-clock instants (`datetime.now()`) are modelled as rational seconds
passed in at each call. -/

/-- The three breaker states. -/
inductive CBState where
  | closed
  | opened
  | halfOpen
deriving Repr, DecidableEq

/-- State carried by a `CircuitBreaker` instance. -/
structure CircuitBreaker where
  failureThreshold : Nat
  recoveryTimeout : Rat
  failureCount : Nat
  lastFailureTime : Option Rat
  state : CBState
deriving Repr, DecidableEq

/-- Model of `CircuitBreaker.__init__`. -/
def CircuitBreaker.init (failureThreshold : Nat) (recoveryTimeout : Rat) :
    CircuitBreaker :=
  { failureThreshold := failureThreshold, recoveryTimeout := recoveryTimeout,
    failureCount := 0, lastFailureTime := none, state := .closed }

/-- Model of `CircuitBreaker._should_attempt_reset`. -/
def CircuitBreaker.shouldAttemptReset (cb : CircuitBreaker) (now : Rat) :
    Bool :=
  match cb.lastFailureTime with
  | none => true
  | some t => decide (now - t > cb.recoveryTimeout)

/-- Model of the state-check half of `CircuitBreaker.call`: the updated
breaker and whether the wrapped function will be invoked. -/
def CircuitBreaker.preCall (cb : CircuitBreaker) (now : Rat) :
    CircuitBreaker × Bool :=
  match cb.state with
  | .opened =>
    if cb.shouldAttemptReset now then ({ cb with state := .halfOpen }, true)
    else (cb, false)
  | _ => (cb, true)

/-- Model of `CircuitBreaker._on_success`. -/
def CircuitBreaker.onSuccess (cb : CircuitBreaker) : CircuitBreaker :=
  { cb with failureCount := 0, state := .closed }

/-- Model of `CircuitBreaker._on_failure`. -/
def CircuitBreaker.onFailure (cb : CircuitBreaker) (now : Rat) :
    CircuitBreaker :=
  { cb with failureCount := cb.failureCount + 1, lastFailureTime := some now,
            state := if cb.failureThreshold ≤ cb.failureCount + 1 then .opened
                     else cb.state }

/-- Observable outcome of one `CircuitBreaker.call`: rejected without
invoking the function, function invoked and succeeded, or function invoked,
failed, and its error re-raised. -/
inductive CallOutcome where
  | rejected
  | success
  | failure
deriving Repr, DecidableEq

/-- Model of `CircuitBreaker.call`, parameterised by whether the wrapped
function (if invoked) succeeds. -/
def CircuitBreaker.call (cb : CircuitBreaker) (now : Rat) (fnSucceeds : Bool) :
    CircuitBreaker × CallOutcome :=
  let pre := cb.preCall now
  if pre.2 then
    if fnSucceeds then (pre.1.onSuccess, .success)
    else (pre.1.onFailure now, .failure)
  else (pre.1, .rejected)

/-- A sequence of calls whose wrapped function fails each time, at the given
instants. -/
def failCalls (cb : CircuitBreaker) : List Rat → CircuitBreaker
  | [] => cb
  | t :: ts => failCalls (cb.call t false).1 ts

/-! ## Retry policy (`WeatherService._handle_api_error_with_retry`) -/

/-- The keyword list the code treats as non-retryable (checked against the
lower-cased error message). -/
def nonRetryableKeywords : List (List Char) :=
  ["invalid".toList, "404".toList, "not found".toList,
   "unauthorized".toList, "401".toList, "forbidden".toList, "403".toList,
   "bad request".toList, "400".toList, "quota".toList,
   "limit exceeded".toList, "api key".toList]

/-- Model of the non-retryable test
`any(keyword in error_msg for keyword in non_retryable_errors)`. -/
def isNonRetryable (msg : List Char) : Bool :=
  nonRetryableKeywords.any (fun k => strHas (pyLower msg) k)

/-- Error-class delay multiplier: 3x for rate-limit errors, 1x for
network/timeout, 2x for 5xx server errors, 1x otherwise (first match wins,
as in the code). -/
def delayMult (msg : List Char) : Rat :=
  if strHas (pyLower msg) "rate limit".toList ||
      strHas (pyLower msg) "429".toList then 3
  else if strHas (pyLower msg) "timeout".toList ||
      strHas (pyLower msg) "network".toList then 1
  else if strHas (pyLower msg) "500".toList ||
      strHas (pyLower msg) "502".toList ||
      strHas (pyLower msg) "503".toList then 2
  else 1

/-- Observable result of the retry wrapper: the final outcome, the sleep
delays performed between attempts (in order), and how many attempts were
made. -/
structure RetryResult (A : Type _) where
  result : Except (List Char) A
  delays : List Rat
  attempts : Nat
deriving Repr

/-- Body of the retry loop.  `attempt` is the current attempt index,
`remaining` how many further attempts are allowed after this one, `delay`
the current base delay (multiplied by 1.5 after every sleep). -/
def retryGo {A : Type _} (f : Nat → Except (List Char) A) (attempt : Nat) :
    Nat → Rat → RetryResult A
  | remaining, delay =>
    match f attempt with
    | .ok a => ⟨.ok a, [], 1⟩
    | .error e =>
      if isNonRetryable e then ⟨.error e, [], 1⟩
      else
        match remaining with
        | 0 => ⟨.error e, [], 1⟩
        | r + 1 =>
          let rest := retryGo f (attempt + 1) r (delay * (3 / 2))
          ⟨rest.result, delayMult e * delay :: rest.delays, rest.attempts + 1⟩

/-- Model of `WeatherService._handle_api_error_with_retry`: run the loop
from attempt 0 with `max_retries` further attempts allowed and base delay
`retry_delay` (code defaults: 2 and 1.0). -/
def handleApiErrorWithRetry {A : Type _} (f : Nat → Except (List Char) A)
    (maxRetries : Nat) (retryDelay : Rat) : RetryResult A :=
  retryGo f 0 maxRetries retryDelay

/-- The sleep-delay sequence produced by a run in which every attempt fails
with a retryable error; `es i` is the message of the error at attempt `i`. -/
def expectedDelays (es : Nat → List Char) (attempt : Nat) :
    Nat → Rat → List Rat
  | 0, _ => []
  | r + 1, delay =>
    delayMult (es attempt) * delay ::
      expectedDelays es (attempt + 1) r (delay * (3 / 2))

/-! ## Command parser (`command_parser.py`)

The command classifier runs eight families of compiled regular expressions
over the stripped message and takes the first family that matches, in a
fixed priority order.  The regular-expression engine itself is outside the
embedding; the outcome of `pattern.search` for each family is an oracle
bit, and the two facts about the hourly patterns a claim needs (every
hourly pattern contains the literal `小时` or `hourly`) enter as explicit
hypotheses.  The keyword- and digit-based parameter extractors contain no
regular expressions beyond `\d+` and are embedded in full. -/

/-- The `CommandType` enum of `models.py`. -/
inductive CommandType where
  | currentWeather
  | forecast
  | hourlyForecast
  | setLocation
  | setUnits
  | help
  | alerts
  | activities
deriving Repr, DecidableEq

/-- Oracle for `pattern.search` over the eight compiled pattern families on
a given text: whether any pattern of the family matches. -/
structure PatternMatches where
  help : Bool
  setLocation : Bool
  setUnits : Bool
  alerts : Bool
  activities : Bool
  hourly : Bool
  forecast : Bool
  weather : Bool
deriving Repr, DecidableEq

/-- Model of `CommandParser.detect_command_type`: priority-ordered
first-match-wins cascade with `CURRENT_WEATHER` as the final fallback
(also returned directly for empty text). -/
def detectCommandType (text : List Char) (m : PatternMatches) : CommandType :=
  if text.isEmpty then .currentWeather
  else if m.help then .help
  else if m.setLocation then .setLocation
  else if m.setUnits then .setUnits
  else if m.alerts then .alerts
  else if m.activities then .activities
  else if m.hourly then .hourlyForecast
  else if m.forecast then .forecast
  else if m.weather then .currentWeather
  else .currentWeather

/-- Keywords mapped to metric units in `_extract_units`. -/
def metricKeywords : List (List Char) :=
  ["摄氏度".toList, "公制".toList, "metric".toList, "celsius".toList,
   "c".toList]

/-- Keywords mapped to imperial units in `_extract_units`. -/
def imperialKeywords : List (List Char) :=
  ["华氏度".toList, "英制".toList, "imperial".toList, "fahrenheit".toList,
   "f".toList]

/-- Model of `CommandParser._extract_units`. -/
def extractUnits (text : List Char) : Option (List Char) :=
  if metricKeywords.any (fun k => strHas (pyLower text) k) then
    some "metric".toList
  else if imperialKeywords.any (fun k => strHas (pyLower text) k) then
    some "imperial".toList
  else none

/-- Model of `CommandParser._extract_forecast_days`: keyword table first,
then the first integer in `[1,14]`, else none. -/
def extractForecastDays (text : List Char) : Option Nat :=
  if strHas text "明天".toList ||
      strHas (pyLower text) "tomorrow".toList then some 1
  else if strHas text "后天".toList ||
      strHas (pyLower text) "day after tomorrow".toList then some 2
  else if strHas text "三天".toList || strHas text "3天".toList ||
      strHas (pyLower text) "3 day".toList then some 3
  else if strHas text "一周".toList || strHas text "7天".toList ||
      strHas (pyLower text) "week".toList then some 7
  else
    match (extractNums text).find? (fun n => 1 ≤ n && n ≤ 14) with
    | some n => some n
    | none => none

/-- Model of `CommandParser._extract_forecast_hours`: when the text contains
`小时` or (lower-cased) `hour`, the first integer in `[1,48]`; in every
other case the function returns 24 (the trailing `return 24` runs both when
no number is in range and when the keyword is absent). -/
def extractForecastHours (text : List Char) : Option Nat :=
  if strHas text "小时".toList || strHas (pyLower text) "hour".toList then
    match (extractNums text).find? (fun n => 1 ≤ n && n ≤ 48) with
    | some n => some n
    | none => some 24
  else some 24

/-- The `additional_params` dict: at most one of the three keys is set,
depending on the command type. -/
structure AdditionalParams where
  units : Option (List Char)
  days : Option Nat
  hours : Option Nat
deriving Repr, DecidableEq

/-- Model of `CommandParser._extract_additional_params`. -/
def extractAdditionalParams (text : List Char) (ct : CommandType) :
    AdditionalParams :=
  match ct with
  | .setUnits => { units := extractUnits text, days := none, hours := none }
  | .forecast =>
    { units := none, days := extractForecastDays text, hours := none }
  | .hourlyForecast =>
    { units := none, days := none, hours := extractForecastHours text }
  | _ => { units := none, days := none, hours := none }

/-- The `WeatherCommand` dataclass. -/
structure WeatherCommand where
  commandType : CommandType
  location : Option (List Char)
  timePeriod : Option (List Char)
  additionalParams : AdditionalParams
deriving Repr, DecidableEq

/-- Model of `CommandParser.parse_command`.  The regex-driven location and
time-period extractors are oracles (`extractedLocation`, `timePeriod`); the
command-type detection and parameter extraction are embedded. -/
def parseCommand (message : List Char) (m : PatternMatches)
    (extractedLocation timePeriod : Option (List Char)) :
    Option WeatherCommand :=
  if isBlank message then none
  else
    let msg := pyStrip message
    let ct := detectCommandType msg m
    if ct = .help then
      some { commandType := ct, location := none, timePeriod := none,
             additionalParams := { units := none, days := none, hours := none } }
    else
      some { commandType := ct, location := extractedLocation,
             timePeriod := timePeriod,
             additionalParams := extractAdditionalParams msg ct }

/-! ## Cache key generation (`cache.py`, `CacheManager.generate_cache_key`)

The code builds `key_string = "|".join([normalized_location, data_type] +
[f"{k}:{v}" for k in sorted(kwargs)])` and returns
`"weather_cache:" + md5(key_string).hexdigest()`.  The md5 digest is a
fixed function of `key_string`; it is not reproduced here, so the key is
modelled as an arbitrary function `md5hex` applied to the embedded
`key_string`, and the distinctness statements are proved on `key_string`
itself (they hold for the final key exactly up to md5 collisions). -/

/-- Boolean lexicographic order on strings by code point, the order Python
`sorted` uses on `str` keys. -/
def strLe : List Char → List Char → Bool
  | [], _ => true
  | _ :: _, [] => false
  | a :: as, b :: bs => if a = b then strLe as bs else decide (a < b)

/-- Comparison of keyword parameters by key only. -/
def paramLe (p q : List Char × List Char) : Bool :=
  strLe p.1 q.1

/-- Model of `location.lower().strip().replace(' ', '_')`. -/
def normalizeLocation (location : List Char) : List Char :=
  (pyStrip (pyLower location)).map (fun c => if c = ' ' then '_' else c)

/-- Model of `"|".join(components)`. -/
def joinBar : List (List Char) → List Char
  | [] => []
  | [x] => x
  | x :: xs => x ++ '|' :: joinBar xs

/-- One `f"{key}:{value}"` component. -/
def paramComponent (p : List Char × List Char) : List Char :=
  p.1 ++ ':' :: p.2

/-- Model of `key_string` in `generate_cache_key`: normalized location,
data type, and the `k:v` components in sorted key order, joined by `|`.
Parameters are the keyword dict as a (distinct-key) association list. -/
def cacheKeyString (location dataType : List Char)
    (ps : List (List Char × List Char)) : List Char :=
  joinBar (normalizeLocation location :: dataType ::
    (sortLe paramLe ps).map paramComponent)

/-- Model of `generate_cache_key`, with the md5 hex digest as an abstract
function of the joined key string. -/
def generateCacheKey (md5hex : List Char → List Char)
    (location dataType : List Char) (ps : List (List Char × List Char)) :
    List Char :=
  "weather_cache:".toList ++ md5hex (cacheKeyString location dataType ps)

/-! ## Forecast conversion
(`WeatherService._convert_openweathermap_forecast`)

One raw entry of the provider's time series, with the fields the conversion
reads.  `date` stands for `datetime.fromtimestamp(item['dt']).date()`
(calendar-date extraction is outside the arithmetic being verified). -/

/-- One entry of `raw_data['list']`. -/
structure OwmForecastItem where
  date : Int
  temp : Rat
  humidity : Rat
  windSpeed : Rat
  condition : List Char
  pop : Rat
deriving Repr, DecidableEq

/-- Boolean order on dates for `sorted(daily_data.keys())`. -/
def intLe (a b : Int) : Bool :=
  decide (a ≤ b)

/-- The group `daily_data[date_key]`: the entries of that calendar date, in
input order. -/
def dayGroup (items : List OwmForecastItem) (d : Int) : List OwmForecastItem :=
  items.filter (fun it => it.date = d)

/-- Python `int(...)` on a float value: truncation toward zero. -/
def pyInt (q : Rat) : Int :=
  if 0 ≤ q then ⌊q⌋ else ⌈q⌉

/-- Python `max` over a non-empty list (0 on the unreachable empty list). -/
def pyMaxQ : List Rat → Rat
  | [] => 0
  | a :: l => l.foldl max a

/-- Python `min` over a non-empty list (0 on the unreachable empty list). -/
def pyMinQ : List Rat → Rat
  | [] => 0
  | a :: l => l.foldl min a

/-- Python `sum`. -/
def qSum (l : List Rat) : Rat :=
  l.sum

/-- Model of one loop body of the conversion: the daily statistics of a
date's group, built through the fallible `ForecastDay` constructor.  The
parameter `setOrder` is the iteration order of `set(conditions)` — Python
fixes only its members, not their order — and
`max(set(conditions), key=conditions.count)` is `pyMaxBy` over it. -/
def dayToForecast (setOrder : List (List Char) → List (List Char)) (d : Int)
    (g : List OwmForecastItem) : Except (List Char) ForecastDay :=
  if g.isEmpty then .error "empty".toList
  else
    mkForecastDay d (pyMaxQ (g.map (fun it => it.temp)))
      (pyMinQ (g.map (fun it => it.temp)))
      ((pyMaxBy (fun c => (g.map (fun it => it.condition)).count c)
        (setOrder (g.map (fun it => it.condition)))).getD [])
      (pyInt (qSum (g.map (fun it => it.pop * 100)) / (g.length : Rat)))
      (qSum (g.map (fun it => it.windSpeed)) / (g.length : Rat))
      (pyInt (qSum (g.map (fun it => it.humidity)) / (g.length : Rat)))

/-- The conversion loop over the sorted, truncated date list; the first
constructor failure aborts the whole conversion. -/
def daysToForecasts (setOrder : List (List Char) → List (List Char))
    (items : List OwmForecastItem) :
    List Int → Except (List Char) (List ForecastDay)
  | [] => .ok []
  | d :: ds =>
    match dayToForecast setOrder d (dayGroup items d) with
    | .error e => .error e
    | .ok fd =>
      match daysToForecasts setOrder items ds with
      | .error e => .error e
      | .ok fds => .ok (fd :: fds)

/-- Model of `_convert_openweathermap_forecast`: group by date, sort the
dates, truncate to the requested day count, convert each group; a
constructor failure aborts the conversion (the caller re-raises it as a
`WeatherError`). -/
def convertOwmForecast (setOrder : List (List Char) → List (List Char))
    (items : List OwmForecastItem) (days : Nat)
    (location units : List Char) (generatedAt : Int) :
    Except (List Char) ForecastData :=
  let dates :=
    (sortLe intLe (fsDedup (items.map (fun it => it.date)))).take days
  match daysToForecasts setOrder items dates with
  | .ok fds =>
    .ok { location := location, days := fds, units := units,
          generatedAt := generatedAt }
  | .error e => .error e

/-- The per-day statistics relation the conversion establishes between an
emitted `ForecastDay` and its date's group of raw entries. -/
def dayStatsOk (items : List OwmForecastItem) (fd : ForecastDay) : Prop :=
  fd.highTemp = pyMaxQ ((dayGroup items fd.date).map (fun it => it.temp)) ∧
  fd.lowTemp = pyMinQ ((dayGroup items fd.date).map (fun it => it.temp)) ∧
  fd.lowTemp ≤ fd.highTemp ∧
  fd.humidity =
    pyInt (qSum ((dayGroup items fd.date).map (fun it => it.humidity)) /
      ((dayGroup items fd.date).length : Rat)) ∧
  0 ≤ fd.humidity ∧ fd.humidity ≤ 100 ∧
  fd.windSpeed =
    qSum ((dayGroup items fd.date).map (fun it => it.windSpeed)) /
      ((dayGroup items fd.date).length : Rat) ∧
  fd.precipitationChance =
    pyInt (qSum ((dayGroup items fd.date).map (fun it => it.pop * 100)) /
      ((dayGroup items fd.date).length : Rat)) ∧
  0 ≤ fd.precipitationChance ∧ fd.precipitationChance ≤ 100 ∧
  fd.condition ∈ (dayGroup items fd.date).map (fun it => it.condition) ∧
  ∀ c ∈ (dayGroup items fd.date).map (fun it => it.condition),
    ((dayGroup items fd.date).map (fun it => it.condition)).count c ≤
      ((dayGroup items fd.date).map (fun it => it.condition)).count
        fd.condition

/-- Refinement definition, from the spec's words only: the most frequent
condition string with ties broken by first-seen order. -/
def specFirstSeenCondition (conds : List (List Char)) : Option (List Char) :=
  pyMaxBy (fun c => conds.count c) (fsDedup conds)

/-- The set-iteration order used by the tie-break counterexample: a
reversed (but still duplicate-free, same-membered) listing of the distinct
conditions. -/
def cexSetOrder (l : List (List Char)) : List (List Char) :=
  (fsDedup l).reverse

/-! ## Query orchestrators (`WeatherService.get_current_weather` and
`WeatherService.get_forecast`)

The collaborators (location service, user preferences, cache manager, the
breaker-and-retry-wrapped API client, and the stale/similar-location
degradation lookup) are abstracted as an environment holding their
outcomes for the one request being modelled.  The orchestrator body is
embedded faithfully over that environment. -/

/-- The fields of an OpenWeatherMap current-weather payload that
`_convert_openweathermap_current` reads (a well-formed payload has them
all). -/
structure OwmCurrentPayload where
  temp : Rat
  feelsLike : Rat
  humidity : Int
  windSpeed : Rat
  windDeg : Int
  pressure : Rat
  visibility : Rat
  description : List Char
  icon : List Char
deriving Repr, DecidableEq

/-- Model of `_convert_openweathermap_current`: build a `WeatherData`
through the fallible dataclass constructor (visibility is converted from
metres to kilometres, the UV index is fixed at 0). -/
def convertOwmCurrent (p : OwmCurrentPayload) (location units : List Char)
    (timestamp : Int) : Except (List Char) WeatherData :=
  mkWeatherData location p.temp p.feelsLike p.humidity p.windSpeed
    p.windDeg p.pressure (p.visibility / 1000) 0 p.description p.icon
    timestamp units

/-- Collaborator outcomes for one `get_current_weather` request. -/
structure CurrentEnv where
  resolvedLocation : Except Unit (List Char)
  units : List Char
  cached : Option WeatherData
  apiResult : Except (List Char) OwmCurrentPayload
  staleFallback : Option WeatherData
deriving Repr

/-- Observable outcome of `get_current_weather`. -/
inductive CurrentOutcome where
  | ok (w : WeatherData)
  | locationError
  | apiError
  | weatherError (msg : List Char)
deriving Repr, DecidableEq

/-- Model of `WeatherService.get_current_weather` for the openweathermap
provider: resolve the location, consult the cache, call the API through
breaker and retry, convert, validate, sanitize when invalid, cache and
return; a `LocationError` triggers suggestion handling, an `APIError`
triggers the stale-cache degradation, and any other exception (including a
`ValueError` from the dataclass constructor, re-raised by the converter as
a `WeatherError`) surfaces as a `WeatherError`. -/
def getCurrentWeather (env : CurrentEnv) (timestamp : Int) :
    CurrentOutcome :=
  match env.resolvedLocation with
  | .error _ => .locationError
  | .ok loc =>
    match env.cached with
    | some w => .ok w
    | none =>
      match env.apiResult with
      | .error _ =>
        match env.staleFallback with
        | some w => .ok w
        | none => .apiError
      | .ok p =>
        match convertOwmCurrent p loc env.units timestamp with
        | .error e => .weatherError e
        | .ok w =>
          .ok (if validateWeatherData w then w else sanitizeWeatherData w)

/-- Collaborator outcomes for one `get_forecast` request. -/
structure ForecastEnv where
  resolvedLocation : Except Unit (List Char)
  units : List Char
  cached : Option ForecastData
  apiResult : Except (List Char) (List OwmForecastItem)
  setOrder : List (List Char) → List (List Char)
  staleFallback : Option ForecastData

/-- Observable outcome of `get_forecast`. -/
inductive ForecastOutcome where
  | ok (fd : ForecastData)
  | locationError
  | apiError
  | weatherError (msg : List Char)
deriving Repr

/-- The I/O steps `get_forecast` can take, in order. -/
inductive Effect where
  | resolveLocation
  | readPrefs
  | cacheRead
  | apiCall
  | cacheWrite
  | fallbackRead
deriving Repr, DecidableEq

/-- Message of the `ValueError` raised for an out-of-range forecast day
count (re-raised as a `WeatherError` by the catch-all handler). -/
def forecastDaysRangeMsg : List Char :=
  "预报天数必须在 1-16 之间".toList

/-- Model of `WeatherService.get_forecast` for the openweathermap
provider, returning the outcome together with the trace of I/O steps
performed.  The day-count validation runs first, inside the `try` block,
so its `ValueError` is wrapped into a `WeatherError` by the final
`except Exception` handler — before any location resolution, cache access
or API call. -/
def getForecast (env : ForecastEnv) (days : Int) (generatedAt : Int) :
    ForecastOutcome × List Effect :=
  if days ≤ 0 ∨ days > 16 then
    (.weatherError forecastDaysRangeMsg, [])
  else
    match env.resolvedLocation with
    | .error _ => (.locationError, [.resolveLocation])
    | .ok loc =>
      match env.cached with
      | some fd => (.ok fd, [.resolveLocation, .readPrefs, .cacheRead])
      | none =>
        match env.apiResult with
        | .ok raw =>
          match convertOwmForecast env.setOrder raw days.toNat loc
              env.units generatedAt with
          | .ok fd =>
            (.ok fd, [.resolveLocation, .readPrefs, .cacheRead, .apiCall,
              .cacheWrite])
          | .error e =>
            (.weatherError e,
              [.resolveLocation, .readPrefs, .cacheRead, .apiCall])
        | .error _ =>
          match env.staleFallback with
          | some fd =>
            (.ok fd, [.resolveLocation, .readPrefs, .cacheRead, .apiCall,
              .fallbackRead])
          | none =>
            (.apiError, [.resolveLocation, .readPrefs, .cacheRead,
              .apiCall, .fallbackRead])

/-- Demonstration payload for the sanitize path: an out-of-range
temperature (100 °C) that the dataclass constructor accepts and the
validator rejects. -/
def sanitizeDemoPayload : OwmCurrentPayload :=
  { temp := 100, feelsLike := 25, humidity := 60, windSpeed := 5,
    windDeg := 90, pressure := 1013, visibility := 10000,
    description := "sunny".toList, icon := "01d".toList }

/-- Demonstration environment whose API fetch yields
`sanitizeDemoPayload`. -/
def sanitizeDemoEnv : CurrentEnv :=
  { resolvedLocation := .ok "beijing".toList, units := "metric".toList,
    cached := none, apiResult := .ok sanitizeDemoPayload,
    staleFallback := none }

/-- Demonstration environment for a working forecast request. -/
def demoForecastEnv : ForecastEnv :=
  { resolvedLocation := .ok "beijing".toList, units := "metric".toList,
    cached := none,
    apiResult := .ok [{ date := 0, temp := 20, humidity := 50,
                        windSpeed := 3, condition := "sunny".toList,
                        pop := 0 }],
    setOrder := fsDedup, staleFallback := none }

end Tianqi

namespace Tianqi

/-! ## Theorems: string primitives -/

theorem dropWhile_idem (p : Char → Bool) (l : List Char) :
    (l.dropWhile p).dropWhile p = l.dropWhile p := by
  induction l with
  | nil => rfl
  | cons a l ih =>
    by_cases h : p a
    · simpa [List.dropWhile, h] using ih
    · simp [List.dropWhile, h]

theorem lstripWs_idem (l : List Char) : lstripWs (lstripWs l) = lstripWs l :=
  dropWhile_idem _ l

theorem rstripWs_idem (l : List Char) : rstripWs (rstripWs l) = rstripWs l := by
  unfold rstripWs
  rw [List.reverse_reverse, dropWhile_idem]

/-- The head surviving a `dropWhile` fails the predicate. -/
theorem dropWhile_head_not (p : Char → Bool) (l : List Char) (a : Char)
    (t : List Char) (h : l.dropWhile p = a :: t) : p a = false := by
  induction l with
  | nil => simp [List.dropWhile] at h
  | cons b l ih =>
    by_cases hb : p b
    · exact ih (by simpa [List.dropWhile, hb] using h)
    · rw [List.dropWhile_cons_of_neg (by simpa using hb)] at h
      cases h; simpa using hb

/-- A `dropWhile` over a list ending in `a` either vanishes or still ends
in `a`. -/
theorem dropWhile_snoc (p : Char → Bool) (l : List Char) (a : Char) :
    (l ++ [a]).dropWhile p = [] ∨
      ∃ l', (l ++ [a]).dropWhile p = l' ++ [a] := by
  induction l with
  | nil =>
    by_cases h : p a
    · left; simp [List.dropWhile, h]
    · right; exact ⟨[], by simp [List.dropWhile, h]⟩
  | cons b l ih =>
    by_cases h : p b
    · simpa [List.dropWhile, h] using ih
    · right; exact ⟨b :: l, by simp [List.dropWhile, h]⟩

/-- Removing trailing whitespace never creates leading whitespace: `lstripWs`
is a no-op after `rstripWs ∘ lstripWs`. -/
theorem lstripWs_rstripWs_lstripWs (l : List Char) :
    lstripWs (rstripWs (lstripWs l)) = rstripWs (lstripWs l) := by
  unfold lstripWs rstripWs
  cases hm : l.dropWhile pyIsSpace with
  | nil => simp
  | cons a t =>
    have ha : pyIsSpace a = false := dropWhile_head_not _ _ _ _ hm
    rcases dropWhile_snoc pyIsSpace t.reverse a with h | ⟨l', h⟩
    · simp [h]
    · simp only [List.reverse_cons, h, List.reverse_append, List.reverse_cons,
        List.reverse_nil, List.nil_append, List.cons_append, List.dropWhile]
      simp [List.dropWhile, ha]

/-- Python `strip()` is idempotent. -/
theorem pyStrip_idem (l : List Char) : pyStrip (pyStrip l) = pyStrip l := by
  unfold pyStrip
  rw [lstripWs_rstripWs_lstripWs, rstripWs_idem]

theorem strStarts_append_right (h a b : List Char) :
    strStarts h (a ++ b) = true → strStarts h a = true := by
  induction a generalizing h with
  | nil => intro _; cases h <;> rfl
  | cons c cs ih =>
    intro hs
    cases h with
    | nil => simp [strStarts] at hs
    | cons d ds =>
      simp only [List.cons_append, strStarts, Bool.and_eq_true] at hs ⊢
      exact ⟨hs.1, ih ds hs.2⟩

theorem strHas_append_right (h a b : List Char) :
    strHas h (a ++ b) = true → strHas h a = true := by
  induction h with
  | nil =>
    intro hs
    simp only [strHas, List.isEmpty_eq_true, List.append_eq_nil] at hs ⊢
    simp [hs.1]
  | cons c cs ih =>
    intro hs
    simp only [strHas, Bool.or_eq_true] at hs ⊢
    rcases hs with hs | hs
    · exact Or.inl (strStarts_append_right _ _ _ hs)
    · exact Or.inr (ih hs)

/-! ## Theorems: insertion sort -/

theorem insertLe_perm {α : Type _} (le : α → α → Bool) (a : α) (l : List α) :
    List.Perm (insertLe le a l) (a :: l) := by
  induction l with
  | nil => exact List.Perm.refl _
  | cons b l ih =>
    unfold insertLe
    split_ifs
    · exact List.Perm.refl _
    · exact (ih.cons b).trans (List.Perm.swap a b l)

theorem sortLe_perm {α : Type _} (le : α → α → Bool) (l : List α) :
    List.Perm (sortLe le l) l := by
  induction l with
  | nil => exact List.Perm.refl _
  | cons a l ih => exact (insertLe_perm le a (sortLe le l)).trans (ih.cons a)

theorem mem_insertLe {α : Type _} (le : α → α → Bool) (a : α) (l : List α)
    (x : α) : x ∈ insertLe le a l ↔ x = a ∨ x ∈ l := by
  rw [(insertLe_perm le a l).mem_iff]
  simp

theorem pairwise_insertLe {α : Type _} (le : α → α → Bool)
    (htot : ∀ a b, le a b = false → le b a = true)
    (htr : ∀ a b c, le a b = true → le b c = true → le a c = true)
    (a : α) (l : List α) (hl : l.Pairwise (fun x y => le x y = true)) :
    (insertLe le a l).Pairwise (fun x y => le x y = true) := by
  induction l with
  | nil => simp [insertLe]
  | cons b l ih =>
    rcases List.pairwise_cons.mp hl with ⟨hb, hl'⟩
    unfold insertLe
    split_ifs with hab
    · refine List.pairwise_cons.mpr ⟨?_, hl⟩
      intro x hx
      rcases List.mem_cons.mp hx with rfl | hx
      · exact hab
      · exact htr a b x hab (hb x hx)
    · refine List.pairwise_cons.mpr ⟨?_, ih hl'⟩
      intro x hx
      rcases (mem_insertLe le a l x).mp hx with rfl | hx
      · exact htot x b (by simpa using hab)
      · exact hb x hx

theorem pairwise_sortLe {α : Type _} (le : α → α → Bool)
    (htot : ∀ a b, le a b = false → le b a = true)
    (htr : ∀ a b c, le a b = true → le b c = true → le a c = true)
    (l : List α) :
    (sortLe le l).Pairwise (fun x y => le x y = true) := by
  induction l with
  | nil => simp [sortLe]
  | cons a l ih => exact pairwise_insertLe le htot htr a _ ih

/-! ## Theorems: lexicographic string order -/

theorem strLe_refl (x : List Char) : strLe x x = true := by
  induction x with
  | nil => rfl
  | cons a as ih => simp [strLe, ih]

theorem strLe_total (x y : List Char) :
    strLe x y = false → strLe y x = true := by
  induction x generalizing y with
  | nil => intro h; simp [strLe] at h
  | cons a as ih =>
    intro h
    cases y with
    | nil => rfl
    | cons b bs =>
      by_cases hab : a = b
      · subst hab
        simp only [strLe, if_pos rfl] at h ⊢
        exact ih bs h
      · simp only [strLe, if_neg hab] at h
        have hba : b ≠ a := fun he => hab he.symm
        simp only [strLe, if_neg hba]
        simp only [decide_eq_false_iff_not] at h
        rcases lt_trichotomy a b with hlt | heq | hgt
        · exact absurd hlt h
        · exact absurd heq hab
        · simpa using hgt

theorem strLe_trans (x : List Char) :
    ∀ y z, strLe x y = true → strLe y z = true → strLe x z = true := by
  induction x with
  | nil => intro y z _ _; rfl
  | cons a as ih =>
    intro y z hxy hyz
    cases y with
    | nil => simp [strLe] at hxy
    | cons b bs =>
      cases z with
      | nil => simp [strLe] at hyz
      | cons c cs =>
        by_cases hab : a = b <;> by_cases hbc : b = c
        · subst hab; subst hbc
          simp only [strLe, if_pos rfl] at hxy hyz ⊢
          exact ih bs cs hxy hyz
        · subst hab
          simp only [strLe, if_pos rfl, if_neg hbc] at hyz ⊢
          exact hyz
        · subst hbc
          simp only [strLe, if_neg hab] at hxy ⊢
          exact hxy
        · simp only [strLe, if_neg hab, if_neg hbc] at hxy hyz
          simp only [decide_eq_true_eq] at hxy hyz
          have hac : a < c := lt_trans hxy hyz
          have hne : a ≠ c := ne_of_lt hac
          simp [strLe, if_neg hne, hac]

theorem strLe_antisymm (x : List Char) :
    ∀ y, strLe x y = true → strLe y x = true → x = y := by
  induction x with
  | nil =>
    intro y _ hyx
    cases y with
    | nil => rfl
    | cons b bs => simp [strLe] at hyx
  | cons a as ih =>
    intro y hxy hyx
    cases y with
    | nil => simp [strLe] at hxy
    | cons b bs =>
      by_cases hab : a = b
      · subst hab
        simp only [strLe, if_pos rfl] at hxy hyx
        rw [ih bs hxy hyx]
      · have hba : b ≠ a := fun he => hab he.symm
        simp only [strLe, if_neg hab] at hxy
        simp only [strLe, if_neg hba] at hyx
        simp only [decide_eq_true_eq] at hxy hyx
        exact absurd (lt_trans hxy hyx) (lt_irrefl a)

/-! ## Theorems: cache key generation (claim C6) -/

theorem paramLe_total (p q : List Char × List Char) :
    paramLe p q = false → paramLe q p = true :=
  strLe_total p.1 q.1

theorem paramLe_trans (p q r : List Char × List Char) :
    paramLe p q = true → paramLe q r = true → paramLe p r = true :=
  strLe_trans p.1 q.1 r.1

/-- Two sorted association lists with the same elements and distinct keys
are equal. -/
theorem sorted_pairs_unique :
    ∀ l l' : List (List Char × List Char), List.Perm l l' →
      l.Pairwise (fun x y => paramLe x y = true) →
      l'.Pairwise (fun x y => paramLe x y = true) →
      (l.map Prod.fst).Nodup → l = l' := by
  intro l
  induction l with
  | nil =>
    intro l' hp _ _ _
    exact ((List.Perm.eq_nil hp.symm)).symm
  | cons a t ih =>
    intro l' hp hs hs' hnd
    cases l' with
    | nil =>
      exact absurd (hp.mem_iff.mp (List.mem_cons_self a t))
        (List.not_mem_nil a)
    | cons b t' =>
      by_cases hab : a = b
      · subst hab
        have hp' := hp.cons_inv
        have hnd' : (t.map Prod.fst).Nodup := by
          simp only [List.map_cons, List.nodup_cons] at hnd
          exact hnd.2
        have := ih t' hp' (List.pairwise_cons.mp hs).2
          (List.pairwise_cons.mp hs').2 hnd'
        rw [this]
      · have ha : a ∈ b :: t' := hp.mem_iff.mp (List.mem_cons_self a t)
        have hat' : a ∈ t' := by
          rcases List.mem_cons.mp ha with h | h
          · exact absurd h hab
          · exact h
        have hb : b ∈ a :: t := hp.symm.mem_iff.mp (List.mem_cons_self b t')
        have hbt : b ∈ t := by
          rcases List.mem_cons.mp hb with h | h
          · exact absurd h.symm hab
          · exact h
        have h1 : paramLe a b = true := (List.pairwise_cons.mp hs).1 b hbt
        have h2 : paramLe b a = true := (List.pairwise_cons.mp hs').1 a hat'
        have hkey : a.1 = b.1 := strLe_antisymm a.1 b.1 h1 h2
        have hnk : a.1 ∉ t.map Prod.fst := by
          simp only [List.map_cons, List.nodup_cons] at hnd
          exact hnd.1
        exact absurd (hkey ▸ List.mem_map_of_mem Prod.fst hbt) hnk

/-- Inserting a value-rewritten pair into a value-rewritten list commutes
with the rewriting, because the order compares keys only. -/
theorem insertLe_map_keyfix (f : List Char × List Char → List Char × List Char)
    (hf : ∀ p, (f p).1 = p.1) (a : List Char × List Char) :
    ∀ l, insertLe paramLe (f a) (l.map f) = (insertLe paramLe a l).map f := by
  intro l
  induction l with
  | nil => rfl
  | cons b l ih =>
    have hle : paramLe (f a) (f b) = paramLe a b := by
      unfold paramLe
      rw [hf a, hf b]
    simp only [List.map_cons]
    unfold insertLe
    rw [hle]
    split_ifs
    · simp
    · simp [ih]

theorem sortLe_map_keyfix (f : List Char × List Char → List Char × List Char)
    (hf : ∀ p, (f p).1 = p.1) :
    ∀ l, sortLe paramLe (l.map f) = (sortLe paramLe l).map f := by
  intro l
  induction l with
  | nil => rfl
  | cons a l ih =>
    simp only [List.map_cons]
    unfold sortLe
    rw [ih, insertLe_map_keyfix f hf]

theorem joinBar_cons_of_ne_nil (x : List Char) (r : List (List Char))
    (h : r ≠ []) : joinBar (x :: r) = x ++ '|' :: joinBar r := by
  cases r with
  | nil => exact absurd rfl h
  | cons s ss => rfl

/-- Joined strings differ when the component lists agree except at a single
position. -/
theorem joinBar_single_diff :
    ∀ (pre : List (List Char)) (x y : List Char) (suf : List (List Char)),
      x ≠ y → joinBar (pre ++ x :: suf) ≠ joinBar (pre ++ y :: suf) := by
  intro pre
  induction pre with
  | nil =>
    intro x y suf hxy
    cases suf with
    | nil => simpa [joinBar] using hxy
    | cons s ss =>
      simp only [List.nil_append]
      rw [joinBar_cons_of_ne_nil x (s :: ss) (by simp),
          joinBar_cons_of_ne_nil y (s :: ss) (by simp)]
      intro h
      exact hxy (List.append_cancel_right h)
  | cons p ps ih =>
    intro x y suf hxy
    rw [List.cons_append, List.cons_append,
        joinBar_cons_of_ne_nil p (ps ++ x :: suf) (by simp),
        joinBar_cons_of_ne_nil p (ps ++ y :: suf) (by simp)]
    intro h
    have h2 := List.append_cancel_left h
    injection h2 with _ h3
    exact ih x y suf hxy h3

/-- Claim C6 (amended): the cache key is a pure deterministic function of
the location, the data-type tag and the parameter set: permuting the
(distinct-key) parameters never changes the key, for every digest function;
changing a single parameter value or the data type always changes the
embedded md5 input string (hence the key, barring md5 collisions); changing
the location changes the md5 input string exactly when the normalized
locations differ — locations that normalize identically collide. -/
theorem cache_key_determinism_and_sensitivity :
    (∀ (md5hex : List Char → List Char) (loc dt : List Char)
        (ps ps' : List (List Char × List Char)),
        List.Perm ps ps' → (ps.map Prod.fst).Nodup →
        generateCacheKey md5hex loc dt ps =
          generateCacheKey md5hex loc dt ps') ∧
    (∀ (loc dt : List Char) (ps : List (List Char × List Char))
        (k v v' : List Char),
        (k, v) ∈ ps → (ps.map Prod.fst).Nodup → v ≠ v' →
        cacheKeyString loc dt ps ≠
          cacheKeyString loc dt
            (ps.map (fun p => if p.1 = k then (p.1, v') else p))) ∧
    (∀ (loc dt dt' : List Char) (ps : List (List Char × List Char)),
        dt ≠ dt' → cacheKeyString loc dt ps ≠ cacheKeyString loc dt' ps) ∧
    (∀ (loc loc' dt : List Char) (ps : List (List Char × List Char)),
        normalizeLocation loc ≠ normalizeLocation loc' →
        cacheKeyString loc dt ps ≠ cacheKeyString loc' dt ps) := by
  refine ⟨?_, ?_, ?_, ?_⟩
  · intro md5hex loc dt ps ps' hperm hnd
    have hsorted :
        sortLe paramLe ps = sortLe paramLe ps' := by
      refine sorted_pairs_unique _ _ ?_ ?_ ?_ ?_
      · exact ((sortLe_perm paramLe ps).trans hperm).trans
          (sortLe_perm paramLe ps').symm
      · exact pairwise_sortLe paramLe paramLe_total paramLe_trans ps
      · exact pairwise_sortLe paramLe paramLe_total paramLe_trans ps'
      · exact (((sortLe_perm paramLe ps).map Prod.fst).nodup_iff).mpr hnd
    unfold generateCacheKey cacheKeyString
    rw [hsorted]
  · intro loc dt ps k v v' hmem hnd hvv
    set f : List Char × List Char → List Char × List Char :=
      fun p => if p.1 = k then (p.1, v') else p with hfdef
    have hf : ∀ p, (f p).1 = p.1 := by
      intro p
      by_cases h : p.1 = k <;> simp [hfdef, h]
    have hmem' : (k, v) ∈ sortLe paramLe ps :=
      (sortLe_perm paramLe ps).mem_iff.mpr hmem
    obtain ⟨pre, suf, hdecomp⟩ := List.append_of_mem hmem'
    have hnds : ((sortLe paramLe ps).map Prod.fst).Nodup :=
      (((sortLe_perm paramLe ps).map Prod.fst).nodup_iff).mpr hnd
    rw [hdecomp] at hnds
    simp only [List.map_append, List.map_cons] at hnds
    have hknotpre : k ∉ pre.map Prod.fst := by
      intro hk
      exact (List.disjoint_of_nodup_append hnds hk) (by simp)
    have hknotsuf : k ∉ suf.map Prod.fst := by
      have := (List.nodup_append.mp hnds).2.1
      exact (List.nodup_cons.mp this).1
    have hpre : pre.map f = pre := by
      have hfix : ∀ p ∈ pre, f p = p := by
        intro p hp
        have hpk : p.1 ≠ k :=
          fun he => hknotpre (he ▸ List.mem_map_of_mem Prod.fst hp)
        simp [hfdef, hpk]
      rw [List.map_congr_left hfix]
      simp
    have hsuf : suf.map f = suf := by
      have hfix : ∀ p ∈ suf, f p = p := by
        intro p hp
        have hpk : p.1 ≠ k :=
          fun he => hknotsuf (he ▸ List.mem_map_of_mem Prod.fst hp)
        simp [hfdef, hpk]
      rw [List.map_congr_left hfix]
      simp
    have hx : paramComponent (k, v) ≠ paramComponent (k, v') := by
      intro h
      unfold paramComponent at h
      have h2 := List.append_cancel_left h
      injection h2 with _ h3
      exact hvv h3
    have hmap : sortLe paramLe (ps.map f) = pre ++ (k, v') :: suf := by
      rw [sortLe_map_keyfix f hf, hdecomp]
      simp only [List.map_append, List.map_cons, hpre, hsuf]
      simp [hfdef]
    unfold cacheKeyString
    rw [hdecomp, hmap]
    simp only [List.map_append, List.map_cons]
    exact joinBar_single_diff
      (normalizeLocation loc :: dt :: pre.map paramComponent)
      (paramComponent (k, v)) (paramComponent (k, v'))
      (suf.map paramComponent) hx
  · intro loc dt dt' ps hne
    unfold cacheKeyString
    have : ∀ d : List Char, normalizeLocation loc :: d ::
        (sortLe paramLe ps).map paramComponent =
        [normalizeLocation loc] ++ d ::
          (sortLe paramLe ps).map paramComponent := by
      intro d; rfl
    rw [this dt, this dt']
    exact joinBar_single_diff [normalizeLocation loc] dt dt'
      ((sortLe paramLe ps).map paramComponent) hne
  · intro loc loc' dt ps hne
    unfold cacheKeyString
    exact joinBar_single_diff [] (normalizeLocation loc)
      (normalizeLocation loc')
      (dt :: (sortLe paramLe ps).map paramComponent) hne

/-- Counterexample for C6 as stated: the locations `a b` and `a_b` differ,
yet they produce identical cache keys for every digest function, because
normalization maps both to `a_b` — changing the location does not always
change the key. -/
theorem cache_key_location_collision :
    "a b".toList ≠ "a_b".toList ∧
    ∀ md5hex : List Char → List Char,
      generateCacheKey md5hex "a b".toList "weather".toList
          [("units".toList, "metric".toList)] =
        generateCacheKey md5hex "a_b".toList "weather".toList
          [("units".toList, "metric".toList)] := by
  refine ⟨by decide, ?_⟩
  intro md5hex
  unfold generateCacheKey
  have hks : cacheKeyString "a b".toList "weather".toList
      [("units".toList, "metric".toList)] =
    cacheKeyString "a_b".toList "weather".toList
      [("units".toList, "metric".toList)] := by decide
  rw [hks]

/-- Witness for C6 (amended): concrete order-independence, value
sensitivity, data-type sensitivity and normalized-location sensitivity. -/
theorem cache_key_determinism_witness :
    generateCacheKey (fun s => s) "Beijing".toList "weather".toList
        [("units".toList, "metric".toList), ("days".toList, "3".toList)] =
      generateCacheKey (fun s => s) "Beijing".toList "weather".toList
        [("days".toList, "3".toList), ("units".toList, "metric".toList)] ∧
    cacheKeyString "beijing".toList "weather".toList
        [("units".toList, "metric".toList)] ≠
      cacheKeyString "beijing".toList "weather".toList
        ([("units".toList, "metric".toList)].map
          (fun p => if p.1 = "units".toList then (p.1, "imperial".toList)
                    else p)) ∧
    cacheKeyString "beijing".toList "weather".toList [] ≠
      cacheKeyString "beijing".toList "forecast".toList [] ∧
    cacheKeyString "beijing".toList "weather".toList [] ≠
      cacheKeyString "shanghai".toList "weather".toList [] := by
  have h := cache_key_determinism_and_sensitivity
  refine ⟨?_, ?_, ?_, ?_⟩
  · exact h.1 (fun s => s) "Beijing".toList "weather".toList _ _
      (List.Perm.swap ("days".toList, "3".toList)
        ("units".toList, "metric".toList) []) (by decide)
  · exact h.2.1 "beijing".toList "weather".toList
      [("units".toList, "metric".toList)] "units".toList "metric".toList
      "imperial".toList (by decide) (by decide) (by decide)
  · exact h.2.2.1 "beijing".toList "weather".toList "forecast".toList []
      (by decide)
  · exact h.2.2.2 "beijing".toList "shanghai".toList "weather".toList []
      (by decide)

/-! ## Theorems: clamping -/

theorem ite_clamp_eq {α : Type _} [LinearOrder α] (lo hi x : α) (h : lo ≤ hi) :
    (if x < lo then lo else if x > hi then hi else x) = max lo (min hi x) := by
  split_ifs with h1 h2
  · rw [min_eq_right (le_of_lt (lt_of_lt_of_le h1 h)), max_eq_left (le_of_lt h1)]
  · rw [min_eq_left (le_of_lt h2), max_eq_right h]
  · push_neg at h1 h2
    rw [min_eq_right h2, max_eq_right h1]

theorem ite_clamp_idem {α : Type _} [LinearOrder α] (lo hi x : α) (h : lo ≤ hi) :
    (if (if x < lo then lo else if x > hi then hi else x) < lo then lo
     else if (if x < lo then lo else if x > hi then hi else x) > hi then hi
     else (if x < lo then lo else if x > hi then hi else x)) =
      (if x < lo then lo else if x > hi then hi else x) := by
  rw [ite_clamp_eq lo hi x h, ite_clamp_eq lo hi _ h]
  have h1 : lo ≤ max lo (min hi x) := le_max_left _ _
  have h2 : max lo (min hi x) ≤ hi := max_le h (min_le_left _ _)
  rw [min_eq_right h2, max_eq_right h1]

/-! ## Theorems: forecast conversion (claim C5) -/

theorem le_foldl_max : ∀ (t : List Rat) (a : Rat), a ≤ t.foldl max a := by
  intro t
  induction t with
  | nil => intro a; exact le_refl a
  | cons b t ih => intro a; exact le_trans (le_max_left a b) (ih (max a b))

theorem foldl_min_le : ∀ (t : List Rat) (a : Rat), t.foldl min a ≤ a := by
  intro t
  induction t with
  | nil => intro a; exact le_refl a
  | cons b t ih => intro a; exact le_trans (ih (min a b)) (min_le_left a b)

theorem pyMinQ_le_pyMaxQ (l : List Rat) (h : l ≠ []) : pyMinQ l ≤ pyMaxQ l := by
  cases l with
  | nil => exact absurd rfl h
  | cons a t => exact le_trans (foldl_min_le t a) (le_foldl_max t a)

theorem qSum_bounds (lo hi : Rat) :
    ∀ l : List Rat, (∀ x ∈ l, lo ≤ x ∧ x ≤ hi) →
      lo * l.length ≤ qSum l ∧ qSum l ≤ hi * l.length := by
  intro l
  induction l with
  | nil => intro _; simp [qSum]
  | cons a t ih =>
    intro h
    have ha := h a (List.mem_cons_self a t)
    have ht := ih (fun x hx => h x (List.mem_cons_of_mem a hx))
    simp only [qSum, List.sum_cons, List.length_cons] at ht ⊢
    push_cast
    constructor <;> nlinarith [ht.1, ht.2, ha.1, ha.2]

theorem mean_bounds (lo hi : Rat) (l : List Rat) (h0 : l ≠ [])
    (h : ∀ x ∈ l, lo ≤ x ∧ x ≤ hi) :
    lo ≤ qSum l / (l.length : Rat) ∧ qSum l / (l.length : Rat) ≤ hi := by
  have hn : (0 : Rat) < (l.length : Rat) := by
    have hne : l.length ≠ 0 := fun he => h0 (List.length_eq_zero.mp he)
    exact_mod_cast Nat.pos_of_ne_zero hne
  have hb := qSum_bounds lo hi l h
  constructor
  · rw [le_div_iff₀ hn]; exact hb.1
  · rw [div_le_iff₀ hn]; exact hb.2

theorem pyInt_bounds (q : Rat) (lo hi : Int) (hlo : 0 ≤ lo)
    (h1 : (lo : Rat) ≤ q) (h2 : q ≤ (hi : Rat)) :
    lo ≤ pyInt q ∧ pyInt q ≤ hi := by
  have h0 : (0 : Rat) ≤ q := le_trans (by exact_mod_cast hlo) h1
  unfold pyInt
  rw [if_pos h0]
  constructor
  · exact Int.le_floor.mpr h1
  · have hf := Int.floor_le_floor h2
    rwa [Int.floor_intCast] at hf

/-- The fold inside `pyMaxBy` returns an element of the scanned prefix (or
the seed) whose key dominates the seed and every scanned element. -/
theorem pyMaxBy_fold_spec {α : Type _} (key : α → Nat) :
    ∀ (l : List α) (a : α),
      (l.foldl (fun cur x => if key cur < key x then x else cur) a = a ∨
        l.foldl (fun cur x => if key cur < key x then x else cur) a ∈ l) ∧
      key a ≤ key (l.foldl (fun cur x => if key cur < key x then x else cur) a) ∧
      ∀ y ∈ l,
        key y ≤ key (l.foldl (fun cur x => if key cur < key x then x else cur) a) := by
  intro l
  induction l with
  | nil => intro a; exact ⟨Or.inl rfl, le_refl _, by simp⟩
  | cons b t ih =>
    intro a
    simp only [List.foldl_cons]
    obtain ⟨hmem, hka, hall⟩ := ih (if key a < key b then b else a)
    have hac : key a ≤ key (if key a < key b then b else a) := by
      by_cases hab : key a < key b
      · rw [if_pos hab]; exact le_of_lt hab
      · rw [if_neg hab]
    have hbc : key b ≤ key (if key a < key b then b else a) := by
      by_cases hab : key a < key b
      · rw [if_pos hab]
      · rw [if_neg hab]; exact le_of_not_lt hab
    refine ⟨?_, le_trans hac hka, ?_⟩
    · rcases hmem with h | h
      · rw [h]
        by_cases hab : key a < key b
        · rw [if_pos hab]; exact Or.inr (List.mem_cons_self b t)
        · rw [if_neg hab]; exact Or.inl rfl
      · exact Or.inr (List.mem_cons_of_mem b h)
    · intro y hy
      rcases List.mem_cons.mp hy with rfl | hy
      · exact le_trans hbc hka
      · exact hall y hy

theorem pyMaxBy_mem_max {α : Type _} (key : α → Nat) (l : List α) (x : α)
    (h : pyMaxBy key l = some x) : x ∈ l ∧ ∀ y ∈ l, key y ≤ key x := by
  cases l with
  | nil => exact Option.noConfusion h
  | cons a t =>
    simp only [pyMaxBy, Option.some.injEq] at h
    obtain ⟨hmem, hka, hall⟩ := pyMaxBy_fold_spec key t a
    subst h
    constructor
    · rcases hmem with h | h
      · rw [h]; exact List.mem_cons_self a t
      · exact List.mem_cons_of_mem a h
    · intro y hy
      rcases List.mem_cons.mp hy with rfl | hy
      · exact hka
      · exact hall y hy

theorem fsDedupAux_mem {α : Type _} [DecidableEq α] :
    ∀ (l seen : List α) (x : α),
      x ∈ fsDedupAux l seen ↔ x ∈ l ∧ x ∉ seen := by
  intro l
  induction l with
  | nil => intro seen x; simp [fsDedupAux]
  | cons a t ih =>
    intro seen x
    unfold fsDedupAux
    split_ifs with ha
    · rw [ih]
      simp only [List.mem_cons]
      constructor
      · rintro ⟨hx, hs⟩
        exact ⟨Or.inr hx, hs⟩
      · rintro ⟨hx | hx, hs⟩
        · exact absurd (hx ▸ ha) hs
        · exact ⟨hx, hs⟩
    · simp only [List.mem_cons, ih, List.mem_cons]
      constructor
      · rintro (rfl | ⟨hx, hs⟩)
        · exact ⟨Or.inl rfl, ha⟩
        · exact ⟨Or.inr hx, fun hxs => hs (Or.inr hxs)⟩
      · rintro ⟨rfl | hx, hs⟩
        · exact Or.inl rfl
        · by_cases hxa : x = a
          · exact Or.inl hxa
          · exact Or.inr ⟨hx, fun hc => hc.elim hxa hs⟩

theorem fsDedupAux_nodup {α : Type _} [DecidableEq α] :
    ∀ l seen : List α, (fsDedupAux l seen).Nodup := by
  intro l
  induction l with
  | nil => intro seen; simp [fsDedupAux]
  | cons a t ih =>
    intro seen
    unfold fsDedupAux
    split_ifs with ha
    · exact ih seen
    · refine List.nodup_cons.mpr ⟨?_, ih (a :: seen)⟩
      intro hmem
      exact ((fsDedupAux_mem t (a :: seen) a).mp hmem).2
        (List.mem_cons_self a seen)

theorem fsDedup_mem {α : Type _} [DecidableEq α] (l : List α) (x : α) :
    x ∈ fsDedup l ↔ x ∈ l := by
  unfold fsDedup
  rw [fsDedupAux_mem]
  simp

theorem fsDedup_nodup {α : Type _} [DecidableEq α] (l : List α) :
    (fsDedup l).Nodup :=
  fsDedupAux_nodup l []

theorem dayGroup_ne_nil (items : List OwmForecastItem) (d : Int)
    (h : d ∈ items.map (fun it => it.date)) : dayGroup items d ≠ [] := by
  obtain ⟨it, hit, hd⟩ := List.mem_map.mp h
  intro hg
  have hmem : it ∈ dayGroup items d :=
    List.mem_filter.mpr ⟨hit, by simp [hd]⟩
  rw [hg] at hmem
  exact (List.not_mem_nil it) hmem

/-- One date group converts successfully and its `ForecastDay` satisfies the
per-day statistics relation, whenever the raw humidities lie in `[0,100]`
and the raw precipitation probabilities in `[0,1]`. -/
theorem dayToForecast_ok (setOrder : List (List Char) → List (List Char))
    (items : List OwmForecastItem) (d : Int)
    (hset : ∀ (l : List (List Char)) (x : List Char),
      x ∈ setOrder l ↔ x ∈ l)
    (hg : dayGroup items d ≠ [])
    (hhum : ∀ it ∈ items, (0 : Rat) ≤ it.humidity ∧ it.humidity ≤ 100)
    (hpop : ∀ it ∈ items, (0 : Rat) ≤ it.pop ∧ it.pop ≤ 1) :
    ∃ fd, dayToForecast setOrder d (dayGroup items d) = .ok fd ∧
      fd.date = d ∧ dayStatsOk items fd := by
  have hne : ¬ (dayGroup items d).isEmpty = true :=
    fun h => hg (List.isEmpty_iff.mp h)
  have hsub : ∀ it ∈ dayGroup items d, it ∈ items :=
    fun it h => (List.mem_filter.mp h).1
  have hhumG : ∀ x ∈ (dayGroup items d).map (fun it => it.humidity),
      (0 : Rat) ≤ x ∧ x ≤ 100 := by
    intro x hx
    obtain ⟨it, hit, rfl⟩ := List.mem_map.mp hx
    exact hhum it (hsub it hit)
  have hpopG : ∀ x ∈ (dayGroup items d).map (fun it => it.pop * 100),
      (0 : Rat) ≤ x ∧ x ≤ 100 := by
    intro x hx
    obtain ⟨it, hit, rfl⟩ := List.mem_map.mp hx
    obtain ⟨h1, h2⟩ := hpop it (hsub it hit)
    constructor <;> nlinarith
  have hmapne : ∀ f : OwmForecastItem → Rat, (dayGroup items d).map f ≠ [] :=
    fun f h => hg (List.map_eq_nil_iff.mp h)
  have hhumMean := mean_bounds 0 100 ((dayGroup items d).map
    (fun it => it.humidity)) (hmapne _) hhumG
  have hpopMean := mean_bounds 0 100 ((dayGroup items d).map
    (fun it => it.pop * 100)) (hmapne _) hpopG
  rw [List.length_map] at hhumMean hpopMean
  have hhumInt := pyInt_bounds _ 0 100 (by norm_num)
    (by exact_mod_cast hhumMean.1) (by exact_mod_cast hhumMean.2)
  have hpopInt := pyInt_bounds _ 0 100 (by norm_num)
    (by exact_mod_cast hpopMean.1) (by exact_mod_cast hpopMean.2)
  have htemp : pyMinQ ((dayGroup items d).map (fun it => it.temp)) ≤
      pyMaxQ ((dayGroup items d).map (fun it => it.temp)) :=
    pyMinQ_le_pyMaxQ _ (hmapne _)
  have hcondsne : (dayGroup items d).map (fun it => it.condition) ≠ [] := by
    intro h
    exact hg (List.map_eq_nil_iff.mp h)
  have hr : ∃ r, pyMaxBy
      (fun c => ((dayGroup items d).map (fun it => it.condition)).count c)
      (setOrder ((dayGroup items d).map (fun it => it.condition))) =
        some r := by
    obtain ⟨c0, hc0⟩ := List.exists_mem_of_ne_nil _ hcondsne
    cases hso : setOrder ((dayGroup items d).map (fun it => it.condition)) with
    | nil =>
      have hmem := (hset _ c0).mpr hc0
      rw [hso] at hmem
      exact absurd hmem (List.not_mem_nil c0)
    | cons s ss =>
      exact ⟨_, rfl⟩
  obtain ⟨r, hrval⟩ := hr
  obtain ⟨hrmem, hrmax⟩ := pyMaxBy_mem_max _ _ r hrval
  have hrmem' : r ∈ (dayGroup items d).map (fun it => it.condition) :=
    (hset _ r).mp hrmem
  have heval : dayToForecast setOrder d (dayGroup items d) =
      .ok { date := d,
            highTemp := pyMaxQ ((dayGroup items d).map (fun it => it.temp)),
            lowTemp := pyMinQ ((dayGroup items d).map (fun it => it.temp)),
            condition := (pyMaxBy
              (fun c => ((dayGroup items d).map (fun it => it.condition)).count c)
              (setOrder ((dayGroup items d).map
                (fun it => it.condition)))).getD [],
            precipitationChance := pyInt (qSum ((dayGroup items d).map
              (fun it => it.pop * 100)) / ((dayGroup items d).length : Rat)),
            windSpeed := qSum ((dayGroup items d).map
              (fun it => it.windSpeed)) / ((dayGroup items d).length : Rat),
            humidity := pyInt (qSum ((dayGroup items d).map
              (fun it => it.humidity)) / ((dayGroup items d).length : Rat)) } := by
    unfold dayToForecast
    rw [if_neg hne]
    unfold mkForecastDay
    rw [if_neg (not_lt.mpr htemp), if_pos (And.intro hpopInt.1 hpopInt.2)]
  refine ⟨_, heval, rfl, ?_⟩
  unfold dayStatsOk
  refine ⟨rfl, rfl, htemp, rfl, hhumInt.1, hhumInt.2, rfl, rfl,
    hpopInt.1, hpopInt.2, ?_, ?_⟩
  · show (pyMaxBy _ _).getD [] ∈ _
    rw [hrval]
    exact hrmem'
  · intro c hc
    show _ ≤ List.count ((pyMaxBy _ _).getD []) _
    rw [hrval]
    exact hrmax c ((hset _ c).mpr hc)

/-- The conversion loop succeeds on any date list whose groups are
non-empty, emitting one `ForecastDay` per date, in order. -/
theorem daysToForecasts_ok (setOrder : List (List Char) → List (List Char))
    (items : List OwmForecastItem)
    (hset : ∀ (l : List (List Char)) (x : List Char),
      x ∈ setOrder l ↔ x ∈ l)
    (hhum : ∀ it ∈ items, (0 : Rat) ≤ it.humidity ∧ it.humidity ≤ 100)
    (hpop : ∀ it ∈ items, (0 : Rat) ≤ it.pop ∧ it.pop ≤ 1) :
    ∀ dates : List Int, (∀ d ∈ dates, dayGroup items d ≠ []) →
      ∃ fds, daysToForecasts setOrder items dates = .ok fds ∧
        fds.map (fun fd => fd.date) = dates ∧
        ∀ fd ∈ fds, dayStatsOk items fd := by
  intro dates
  induction dates with
  | nil => intro _; exact ⟨[], rfl, rfl, by simp⟩
  | cons d ds ih =>
    intro hgne
    obtain ⟨fd, hfd, hdate, hstats⟩ := dayToForecast_ok setOrder items d hset
      (hgne d (List.mem_cons_self d ds)) hhum hpop
    obtain ⟨fds, hfds, hmapd, hall⟩ :=
      ih (fun x hx => hgne x (List.mem_cons_of_mem d hx))
    refine ⟨fd :: fds, ?_, ?_, ?_⟩
    · unfold daysToForecasts
      rw [hfd]
      simp only []
      rw [hfds]
    · simp [hmapd, hdate]
    · intro x hx
      rcases List.mem_cons.mp hx with rfl | hx
      · exact hstats
      · exact hall x hx

theorem intLe_total (a b : Int) : intLe a b = false → intLe b a = true := by
  intro h
  simp only [intLe, decide_eq_false_iff_not, not_le] at h
  simp only [intLe, decide_eq_true_eq]
  omega

theorem intLe_trans (a b c : Int) :
    intLe a b = true → intLe b c = true → intLe a c = true := by
  intro h1 h2
  simp only [intLe, decide_eq_true_eq] at h1 h2 ⊢
  omega

/-- Claim C5 (amended): under valid raw entries (humidity in `[0,100]`,
precipitation probability in `[0,1]`) and any legal set-iteration order,
conversion succeeds; it emits at most `days` entries, in non-decreasing
date order, and every emitted day has `high_temp` the maximum and
`low_temp` the minimum of its date's temperatures, humidity and
precipitation chance the truncated arithmetic means lying in `[0,100]`,
wind speed the arithmetic mean, and a condition string of maximal
frequency among the day's conditions (the tie-break is the set-iteration
order, not first-seen order). -/
theorem forecast_conversion_properties
    (setOrder : List (List Char) → List (List Char))
    (items : List OwmForecastItem) (days : Nat) (loc un : List Char)
    (gen : Int)
    (hset : ∀ (l : List (List Char)) (x : List Char),
      x ∈ setOrder l ↔ x ∈ l)
    (hhum : ∀ it ∈ items, (0 : Rat) ≤ it.humidity ∧ it.humidity ≤ 100)
    (hpop : ∀ it ∈ items, (0 : Rat) ≤ it.pop ∧ it.pop ≤ 1) :
    ∃ fd, convertOwmForecast setOrder items days loc un gen = .ok fd ∧
      fd.days.length ≤ days ∧
      (fd.days.map (fun day => day.date)).Pairwise (fun a b => a ≤ b) ∧
      ∀ day ∈ fd.days, dayStatsOk items day := by
  have hdmem : ∀ d ∈ (sortLe intLe
      (fsDedup (items.map (fun it => it.date)))).take days,
      dayGroup items d ≠ [] := by
    intro d hd
    apply dayGroup_ne_nil
    have h1 := List.mem_of_mem_take hd
    have h2 := (sortLe_perm intLe _).mem_iff.mp h1
    exact (fsDedup_mem _ _).mp h2
  obtain ⟨fds, hfds, hmapd, hall⟩ := daysToForecasts_ok setOrder items hset
    hhum hpop ((sortLe intLe (fsDedup (items.map (fun it => it.date)))).take
      days) hdmem
  refine ⟨{ location := loc, days := fds, units := un, generatedAt := gen },
    ?_, ?_, ?_, ?_⟩
  · unfold convertOwmForecast
    dsimp only
    rw [hfds]
  · have hlen := congrArg List.length hmapd
    simp only [List.length_map] at hlen
    rw [hlen]
    exact List.length_take_le days _
  · show (fds.map (fun day => day.date)).Pairwise (fun a b => a ≤ b)
    rw [hmapd]
    have hs := pairwise_sortLe intLe intLe_total intLe_trans
      (fsDedup (items.map (fun it => it.date)))
    have ht := hs.sublist (List.take_sublist days _)
    exact ht.imp (fun h => by simpa [intLe] using h)
  · exact hall

/-- Counterexample for C5 as stated: with the two tied conditions `rain`
(first seen) and `sun`, a legal set-iteration order (duplicate-free, same
members) makes the conversion emit `sun`, not the first-seen `rain` the
claim requires — `max(set(conditions), ...)` ties break by set iteration
order, which Python does not fix. -/
theorem forecast_tiebreak_not_first_seen :
    List.Perm (cexSetOrder ["rain".toList, "sun".toList])
      (fsDedup ["rain".toList, "sun".toList]) ∧
    (cexSetOrder ["rain".toList, "sun".toList]).Nodup ∧
    convertOwmForecast cexSetOrder
      [{ date := 0, temp := 10, humidity := 0, windSpeed := 0,
         condition := "rain".toList, pop := 0 },
       { date := 0, temp := 20, humidity := 0, windSpeed := 0,
         condition := "sun".toList, pop := 0 }] 5 [] [] 0 =
      .ok { location := [],
            days := [{ date := 0, highTemp := 20, lowTemp := 10,
                       condition := "sun".toList,
                       precipitationChance := 0,
                       windSpeed := 0, humidity := 0 }],
            units := [], generatedAt := 0 } ∧
    specFirstSeenCondition ["rain".toList, "sun".toList] =
      some "rain".toList ∧
    "sun".toList ≠ "rain".toList := by
  refine ⟨by decide, by decide, ?_, by decide, by decide⟩
  have hmax : pyMaxQ [(10 : Rat), 20] = 20 := by
    unfold pyMaxQ
    simp only [List.foldl_cons, List.foldl_nil]
    exact max_eq_right (by norm_num)
  have hmin : pyMinQ [(10 : Rat), 20] = 10 := by
    unfold pyMinQ
    simp only [List.foldl_cons, List.foldl_nil]
    exact min_eq_left (by norm_num)
  have hsum : qSum [(0 : Rat), 0] = 0 := by simp [qSum]
  have hpy : pyInt 0 = 0 := by simp [pyInt]
  have hday : dayToForecast cexSetOrder 0
      [{ date := 0, temp := 10, humidity := 0, windSpeed := 0,
         condition := "rain".toList, pop := 0 },
       { date := 0, temp := 20, humidity := 0, windSpeed := 0,
         condition := "sun".toList, pop := 0 }] =
      .ok { date := 0, highTemp := 20, lowTemp := 10,
            condition := "sun".toList, precipitationChance := 0,
            windSpeed := 0, humidity := 0 } := by
    unfold dayToForecast
    rw [if_neg (by decide)]
    simp only [List.map_cons, List.map_nil, List.length_cons,
      List.length_nil]
    norm_num
    rw [hmax, hmin, hsum, zero_div, hpy]
    rfl
  unfold convertOwmForecast
  dsimp only
  have hdates : (sortLe intLe (fsDedup
      (([{ date := 0, temp := 10, humidity := 0, windSpeed := 0,
           condition := "rain".toList, pop := (0 : Rat) },
         { date := 0, temp := 20, humidity := 0, windSpeed := 0,
           condition := "sun".toList, pop := 0 }] :
        List OwmForecastItem).map (fun it => it.date)))).take 5 = [0] := by
    decide
  rw [hdates]
  unfold daysToForecasts
  have hgroup : dayGroup
      [{ date := 0, temp := 10, humidity := 0, windSpeed := 0,
         condition := "rain".toList, pop := (0 : Rat) },
       { date := 0, temp := 20, humidity := 0, windSpeed := 0,
         condition := "sun".toList, pop := 0 }] 0 =
      [{ date := 0, temp := 10, humidity := 0, windSpeed := 0,
         condition := "rain".toList, pop := (0 : Rat) },
       { date := 0, temp := 20, humidity := 0, windSpeed := 0,
         condition := "sun".toList, pop := 0 }] := by decide
  rw [hgroup, hday]
  rfl

/-- Witness for C5 (amended): a concrete two-entry payload over two dates
converts with all the stated properties. -/
theorem forecast_conversion_properties_witness :
    ∃ fd, convertOwmForecast fsDedup
      [{ date := 1, temp := 15, humidity := 40, windSpeed := 3,
         condition := "cloudy".toList, pop := 1 },
       { date := 0, temp := 25, humidity := 60, windSpeed := 5,
         condition := "sunny".toList, pop := 0 }] 3
      "x".toList "metric".toList 0 = .ok fd ∧
      fd.days.length ≤ 3 ∧
      (fd.days.map (fun day => day.date)).Pairwise (fun a b => a ≤ b) ∧
      ∀ day ∈ fd.days, dayStatsOk
        [{ date := 1, temp := 15, humidity := 40, windSpeed := 3,
           condition := "cloudy".toList, pop := 1 },
         { date := 0, temp := 25, humidity := 60, windSpeed := 5,
           condition := "sunny".toList, pop := 0 }] day :=
  forecast_conversion_properties fsDedup
    [{ date := 1, temp := 15, humidity := 40, windSpeed := 3,
       condition := "cloudy".toList, pop := 1 },
     { date := 0, temp := 25, humidity := 60, windSpeed := 5,
       condition := "sunny".toList, pop := 0 }] 3
    "x".toList "metric".toList 0
    (fun l x => fsDedup_mem l x) (by decide) (by decide)

/-! ## Theorems: sanitizer (claim C7) -/

theorem emptyGuard_strip_idem (l : List Char) :
    (if (if l.isEmpty then l else pyStrip l).isEmpty then
       (if l.isEmpty then l else pyStrip l)
     else pyStrip (if l.isEmpty then l else pyStrip l)) =
      (if l.isEmpty then l else pyStrip l) := by
  by_cases h : l.isEmpty
  · simp [h]
  · simp only [h, if_false]
    by_cases h2 : (pyStrip l).isEmpty
    · simp [h2]
    · simp [h2, pyStrip_idem]

theorem emptyGuard_strip_eq (l : List Char) :
    (if l.isEmpty then l else pyStrip l) = pyStrip l := by
  by_cases h : l.isEmpty
  · rw [if_pos h, List.isEmpty_iff.mp h]; rfl
  · rw [if_neg h]

/-- Claim C7: the sanitizer clamps temperature to `[-100,60]`, humidity to
`[0,100]`, wind speed to `[0,500]`, pressure to `[800,1100]`, replaces the
wind direction by its value modulo 360, trims whitespace from location and
condition, and is idempotent: sanitizing twice equals sanitizing once, for
every weather record, including out-of-range ones. -/
theorem sanitize_clamps_and_is_idempotent (w : WeatherData) :
    (sanitizeWeatherData w).temperature = max (-100) (min 60 w.temperature) ∧
    (sanitizeWeatherData w).humidity = max 0 (min 100 w.humidity) ∧
    (sanitizeWeatherData w).windSpeed = max 0 (min 500 w.windSpeed) ∧
    (sanitizeWeatherData w).pressure = max 800 (min 1100 w.pressure) ∧
    (sanitizeWeatherData w).windDirection = w.windDirection % 360 ∧
    (sanitizeWeatherData w).location = pyStrip w.location ∧
    (sanitizeWeatherData w).condition = pyStrip w.condition ∧
    sanitizeWeatherData (sanitizeWeatherData w) = sanitizeWeatherData w := by
  obtain ⟨loc, t, fl, hum, ws, wd, p, vis, uv, cond, cc, ts, un⟩ := w
  refine ⟨ite_clamp_eq _ _ _ (by norm_num), ite_clamp_eq _ _ _ (by norm_num),
    ite_clamp_eq _ _ _ (by norm_num), ite_clamp_eq _ _ _ (by norm_num),
    rfl, emptyGuard_strip_eq loc, emptyGuard_strip_eq cond, ?_⟩
  simp only [sanitizeWeatherData, WeatherData.mk.injEq, and_true, true_and]
  exact ⟨emptyGuard_strip_idem loc,
    ite_clamp_idem (-100) 60 t (by norm_num),
    ite_clamp_idem 0 100 hum (by norm_num),
    ite_clamp_idem 0 500 ws (by norm_num),
    Int.emod_emod_of_dvd wd dvd_rfl,
    ite_clamp_idem 800 1100 p (by norm_num),
    emptyGuard_strip_idem cond⟩

/-! ## Theorems: dataclass constructors (claim C10) -/

/-- Claim C10: every `WeatherData` that the dataclass constructor accepts
satisfies `humidity ∈ [0,100]`, `wind_speed ≥ 0` and
`wind_direction ∈ [0,360]`, and every accepted `ForecastDay` satisfies
`high_temp ≥ low_temp` and `precipitation_chance ∈ [0,100]`; any argument
outside these ranges makes the constructor raise, so records flow through
the system with these bounds by construction. -/
theorem constructors_enforce_bounds :
    (∀ loc t fl hum ws wd p vis uv cond cc ts un w,
        mkWeatherData loc t fl hum ws wd p vis uv cond cc ts un = .ok w →
          0 ≤ w.humidity ∧ w.humidity ≤ 100 ∧ 0 ≤ w.windSpeed ∧
          0 ≤ w.windDirection ∧ w.windDirection ≤ 360) ∧
    (∀ loc t fl hum ws wd p vis uv cond cc ts un,
        ¬(0 ≤ hum ∧ hum ≤ 100) ∨ ws < 0 ∨ ¬(0 ≤ wd ∧ wd ≤ 360) →
          ∃ e, mkWeatherData loc t fl hum ws wd p vis uv cond cc ts un =
            .error e) ∧
    (∀ d hi lo cond pc ws hum fd,
        mkForecastDay d hi lo cond pc ws hum = .ok fd →
          fd.lowTemp ≤ fd.highTemp ∧
          0 ≤ fd.precipitationChance ∧ fd.precipitationChance ≤ 100) ∧
    (∀ d hi lo cond pc ws hum,
        hi < lo ∨ ¬(0 ≤ pc ∧ pc ≤ 100) →
          ∃ e, mkForecastDay d hi lo cond pc ws hum = .error e) := by
  refine ⟨?_, ?_, ?_, ?_⟩
  · intro loc t fl hum ws wd p vis uv cond cc ts un w hok
    unfold mkWeatherData at hok
    split_ifs at hok with h1 h2 h3
    cases hok
    exact ⟨h1.1, h1.2, not_lt.mp h2, h3.1, h3.2⟩
  · intro loc t fl hum ws wd p vis uv cond cc ts un h
    unfold mkWeatherData
    split_ifs with h1 h2 h3
    · exact ⟨_, rfl⟩
    · rcases h with h | h | h
      · exact absurd h1 h
      · exact absurd h h2
      · exact absurd h3 h
    · exact ⟨_, rfl⟩
    · exact ⟨_, rfl⟩
  · intro d hi lo cond pc ws hum fd hok
    unfold mkForecastDay at hok
    split_ifs at hok with h1 h2
    cases hok
    exact ⟨not_lt.mp h1, h2.1, h2.2⟩
  · intro d hi lo cond pc ws hum h
    unfold mkForecastDay
    split_ifs with h1 h2
    · exact ⟨_, rfl⟩
    · rcases h with h | h
      · exact absurd h h1
      · exact absurd h2 h
    · exact ⟨_, rfl⟩

/-! ## Theorems: circuit breaker (claim C2) -/

/-- A run of consecutive failing calls from a closed breaker that exactly
reaches the failure threshold leaves the breaker open, with the failure
count at the threshold and the last failure time recorded; the
configuration fields are untouched. -/
theorem failCalls_reaches_opened (times : List Rat) :
    ∀ cb : CircuitBreaker, cb.state = .closed →
      cb.failureCount + times.length = cb.failureThreshold →
      0 < times.length →
      (failCalls cb times).state = .opened ∧
      (failCalls cb times).failureCount = cb.failureThreshold ∧
      (failCalls cb times).failureThreshold = cb.failureThreshold ∧
      (failCalls cb times).recoveryTimeout = cb.recoveryTimeout ∧
      (failCalls cb times).lastFailureTime = times.getLast? := by
  induction times with
  | nil => intro cb _ _ h; simp at h
  | cons t ts ih =>
    intro cb hstate hcount _
    have hstep : (cb.call t false).1 = cb.onFailure t := by
      simp [CircuitBreaker.call, CircuitBreaker.preCall, hstate]
    cases ts with
    | nil =>
      have hth : cb.failureThreshold ≤ cb.failureCount + 1 := by
        simp at hcount; omega
      simp only [failCalls, hstep, CircuitBreaker.onFailure, if_pos hth]
      simp
      simp at hcount
      omega
    | cons u us =>
      have hlt : ¬ cb.failureThreshold ≤ cb.failureCount + 1 := by
        simp at hcount; omega
      have hof : (cb.onFailure t).state = CBState.closed := by
        simp [CircuitBreaker.onFailure, if_neg hlt, hstate]
      have hcnt : (cb.onFailure t).failureCount + (u :: us).length =
          (cb.onFailure t).failureThreshold := by
        simp only [CircuitBreaker.onFailure]
        simp at hcount ⊢
        omega
      have hrest := ih (cb.onFailure t) hof hcnt (by simp)
      rw [failCalls, hstep]
      refine ⟨hrest.1, ?_, ?_, ?_, ?_⟩
      · rw [hrest.2.1]; simp [CircuitBreaker.onFailure]
      · rw [hrest.2.2.1]; simp [CircuitBreaker.onFailure]
      · rw [hrest.2.2.2.1]; simp [CircuitBreaker.onFailure]
      · rw [hrest.2.2.2.2, List.getLast?_cons_cons]

/-- Claim C2: after `failure_threshold` consecutive failed calls the breaker
is OPEN and a further call inside the recovery window is rejected without
invoking the wrapped function and without changing the breaker; once
`recovery_timeout` has elapsed since the last failure, the next call moves
the breaker to HALF_OPEN and does invoke the function; a successful
invocation resets the failure count to 0 and the state to CLOSED; a failed
invocation increments the failure count, records the failure time and
re-raises (outcome `failure`). -/
theorem circuit_breaker_state_machine :
    (∀ (threshold : Nat) (recovery : Rat) (times : List Rat) (tl now : Rat)
        (b : Bool),
        0 < threshold → times.length = threshold →
        times.getLast? = some tl →
        (failCalls (CircuitBreaker.init threshold recovery) times).state =
          .opened ∧
        (failCalls (CircuitBreaker.init threshold recovery) times).failureCount
          = threshold ∧
        (now - tl ≤ recovery →
          ((failCalls (CircuitBreaker.init threshold recovery) times).call
              now b).2 = .rejected ∧
          ((failCalls (CircuitBreaker.init threshold recovery) times).call
              now b).1 =
            failCalls (CircuitBreaker.init threshold recovery) times)) ∧
    (∀ (cb : CircuitBreaker) (now tl : Rat) (b : Bool),
        cb.state = .opened → cb.lastFailureTime = some tl →
        cb.recoveryTimeout < now - tl →
        (cb.preCall now).1.state = .halfOpen ∧ (cb.preCall now).2 = true ∧
        (cb.call now b).2 ≠ .rejected) ∧
    (∀ (cb : CircuitBreaker) (now : Rat),
        (cb.preCall now).2 = true →
        (cb.call now true).1.failureCount = 0 ∧
        (cb.call now true).1.state = .closed ∧
        (cb.call now true).2 = .success) ∧
    (∀ (cb : CircuitBreaker) (now : Rat),
        (cb.preCall now).2 = true →
        (cb.call now false).1.failureCount = cb.failureCount + 1 ∧
        (cb.call now false).1.lastFailureTime = some now ∧
        (cb.call now false).2 = .failure) := by
  refine ⟨?_, ?_, ?_, ?_⟩
  · intro threshold recovery times tl now b hpos hlen hlast
    have h := failCalls_reaches_opened times (CircuitBreaker.init threshold recovery)
      rfl (by simp [CircuitBreaker.init, hlen]) (by omega)
    refine ⟨h.1, by simpa [CircuitBreaker.init] using h.2.1, ?_⟩
    intro hwin
    have hreset :
        (failCalls (CircuitBreaker.init threshold recovery) times).shouldAttemptReset now = false := by
      unfold CircuitBreaker.shouldAttemptReset
      rw [h.2.2.2.2, hlast, h.2.2.2.1]
      simp only [CircuitBreaker.init, decide_eq_false_iff_not]
      exact not_lt.mpr hwin
    constructor <;>
      simp [CircuitBreaker.call, CircuitBreaker.preCall, h.1, hreset]
  · intro cb now tl b hstate hlast hrec
    have hreset : cb.shouldAttemptReset now = true := by
      unfold CircuitBreaker.shouldAttemptReset
      rw [hlast]
      simpa using hrec
    refine ⟨?_, ?_, ?_⟩
    · simp [CircuitBreaker.preCall, hstate, hreset]
    · simp [CircuitBreaker.preCall, hstate, hreset]
    · have hpre : (cb.preCall now).2 = true := by
        simp [CircuitBreaker.preCall, hstate, hreset]
      cases b <;> simp [CircuitBreaker.call, hpre]
  · intro cb now hpre
    simp [CircuitBreaker.call, hpre, CircuitBreaker.onSuccess]
  · intro cb now hpre
    have hfc : (cb.preCall now).1.failureCount = cb.failureCount := by
      unfold CircuitBreaker.preCall
      cases h : cb.state <;> simp
      split_ifs <;> rfl
    simp [CircuitBreaker.call, hpre, CircuitBreaker.onFailure, hfc]

/-! ## Theorems: command parser (claims C4 and C9) -/

/-- Classification as a hourly-forecast command needs the hourly oracle
bit. -/
theorem detect_hourly_needs_bit (text : List Char) (m : PatternMatches)
    (h : detectCommandType text m = .hourlyForecast) : m.hourly = true := by
  unfold detectCommandType at h
  split_ifs at h <;> simp_all

/-- With every oracle bit false the cascade falls through to
`CURRENT_WEATHER`, for empty and non-empty text alike. -/
theorem detect_all_false (text : List Char) (m : PatternMatches)
    (h1 : m.help = false) (h2 : m.setLocation = false)
    (h3 : m.setUnits = false) (h4 : m.alerts = false)
    (h5 : m.activities = false) (h6 : m.hourly = false)
    (h7 : m.forecast = false) (h8 : m.weather = false) :
    detectCommandType text m = .currentWeather := by
  unfold detectCommandType
  simp [h1, h2, h3, h4, h5, h6, h7, h8]

/-- Claim C4: for every input string the parser returns without raising (the
model is a total function into `Option WeatherCommand`); it returns `none`
exactly for empty or whitespace-only input; any other input yields a
well-formed command whose intent is a `CommandType` value, and when none of
the pattern families matches, the intent defaults to `CURRENT_WEATHER`. -/
theorem parse_command_total_blank_default (message : List Char)
    (m : PatternMatches) (loc tp : Option (List Char)) :
    (parseCommand message m loc tp = none ↔ isBlank message = true) ∧
    (∀ cmd, parseCommand message m loc tp = some cmd →
      m.help = false → m.setLocation = false → m.setUnits = false →
      m.alerts = false → m.activities = false → m.hourly = false →
      m.forecast = false → m.weather = false →
      cmd.commandType = .currentWeather) := by
  constructor
  · unfold parseCommand
    split_ifs with hb
    · simp [hb]
    · dsimp only
      split_ifs <;> simp [hb]
  · intro cmd hcmd h1 h2 h3 h4 h5 h6 h7 h8
    have hdet := detect_all_false (pyStrip message) m h1 h2 h3 h4 h5 h6 h7 h8
    unfold parseCommand at hcmd
    split_ifs at hcmd with hb
    dsimp only at hcmd
    rw [hdet] at hcmd
    rw [if_neg (by simp)] at hcmd
    injection hcmd with hrec
    rw [← hrec]

/-- Witness for C4: a whitespace-only message parses to `none`; the message
`hello` with no pattern match parses to a `CURRENT_WEATHER` command. -/
theorem parse_command_total_blank_default_witness :
    parseCommand "  ".toList ⟨false, false, false, false, false, false, false, false⟩ none none = none ∧
    (∀ cmd,
      parseCommand "hello".toList
        ⟨false, false, false, false, false, false, false, false⟩ none none =
          some cmd →
      cmd.commandType = CommandType.currentWeather) :=
  ⟨(parse_command_total_blank_default "  ".toList
      ⟨false, false, false, false, false, false, false, false⟩ none none).1.mpr
      (by decide),
   fun cmd h =>
    (parse_command_total_blank_default "hello".toList
      ⟨false, false, false, false, false, false, false, false⟩ none none).2
      cmd h rfl rfl rfl rfl rfl rfl rfl rfl⟩

/-- Claim C9: for a message classified as a HOURLY_FORECAST command, the
extracted hour count is the first integer of the text lying in `[1,48]`;
when no such number is present it is 24 when the hour word (`小时` /
`hour`) appears, and absent otherwise.  Every hourly pattern of the parser
contains the literal `小时` or `hourly`, which is the hypothesis `hsound`
relating the regex oracle to the text. -/
theorem hourly_command_hours_param (message : List Char) (m : PatternMatches)
    (loc tp : Option (List Char)) (cmd : WeatherCommand)
    (hsound : m.hourly = true →
      strHas (pyStrip message) "小时".toList = true ∨
      strHas (pyLower (pyStrip message)) "hourly".toList = true)
    (hparse : parseCommand message m loc tp = some cmd)
    (hct : cmd.commandType = .hourlyForecast) :
    cmd.additionalParams.hours =
      (match (extractNums (pyStrip message)).find?
          (fun n => 1 ≤ n && n ≤ 48) with
       | some n => some n
       | none =>
         if strHas (pyStrip message) "小时".toList = true ∨
             strHas (pyLower (pyStrip message)) "hour".toList = true
         then some 24 else none) := by
  unfold parseCommand at hparse
  split_ifs at hparse with hb
  dsimp only at hparse
  by_cases hh : detectCommandType (pyStrip message) m = CommandType.help
  case pos =>
    rw [if_pos hh] at hparse
    injection hparse with hrec
    rw [← hrec] at hct
    rw [hh] at hct
    exact absurd hct (by simp)
  case neg =>
    rw [if_neg hh] at hparse
    injection hparse with hrec
    subst hrec
    dsimp only at hct ⊢
    have hbit : m.hourly = true := detect_hourly_needs_bit _ _ hct
    have hkwLong := hsound hbit
    have hkw : strHas (pyStrip message) "小时".toList = true ∨
        strHas (pyLower (pyStrip message)) "hour".toList = true := by
      rcases hkwLong with h | h
      · exact Or.inl h
      · refine Or.inr ?_
        have : ("hourly".toList : List Char) =
            "hour".toList ++ "ly".toList := by decide
        rw [this] at h
        exact strHas_append_right _ _ _ h
    simp only [hct, extractAdditionalParams]
    unfold extractForecastHours
    have hcond : (strHas (pyStrip message) "小时".toList ||
        strHas (pyLower (pyStrip message)) "hour".toList) = true := by
      rcases hkw with h | h
      · rw [h, Bool.true_or]
      · rw [h, Bool.or_true]
    rw [if_pos hcond]
    cases hfind : (extractNums (pyStrip message)).find?
        (fun n => 1 ≤ n && n ≤ 48) with
    | none => rw [if_pos hkw]
    | some n => rfl

/-- Witness for C9: the message `hourly forecast beijing 12` (hourly oracle
bit set) parses to a concrete command whose hours parameter matches the
claimed extraction rule (it is 12, the first in-range integer). -/
theorem hourly_command_hours_param_witness :
    ({ commandType := CommandType.hourlyForecast, location := none,
       timePeriod := none,
       additionalParams := { units := none, days := none,
                             hours := some 12 } } :
      WeatherCommand).additionalParams.hours =
      (match (extractNums
          (pyStrip "hourly forecast beijing 12".toList)).find?
          (fun n => 1 ≤ n && n ≤ 48) with
       | some n => some n
       | none =>
         if strHas (pyStrip "hourly forecast beijing 12".toList)
               "小时".toList = true ∨
             strHas (pyLower (pyStrip "hourly forecast beijing 12".toList))
               "hour".toList = true
         then some 24 else none) :=
  hourly_command_hours_param "hourly forecast beijing 12".toList
    ⟨false, false, false, false, false, true, false, false⟩ none none
    { commandType := CommandType.hourlyForecast, location := none,
      timePeriod := none,
      additionalParams := { units := none, days := none,
                            hours := some 12 } }
    (fun _ => Or.inr (by decide)) (by decide) rfl

/-! ## Theorems: retry policy (claim C3) -/

theorem retryGo_attempts_le {A : Type _} (f : Nat → Except (List Char) A) :
    ∀ (remaining attempt : Nat) (d : Rat),
      (retryGo f attempt remaining d).attempts ≤ remaining + 1 := by
  intro remaining
  induction remaining with
  | zero =>
    intro attempt d
    cases hf : f attempt with
    | ok a => rw [retryGo, hf]
    | error e =>
      rw [retryGo, hf]
      simp only []
      split_ifs <;> simp
  | succ r ih =>
    intro attempt d
    cases hf : f attempt with
    | ok a => rw [retryGo, hf]; simp
    | error e =>
      rw [retryGo, hf]
      simp only []
      split_ifs with h
      · simp
      · have hrec := ih (attempt + 1) (d * (3 / 2))
        dsimp only
        omega

theorem retryGo_allfail {A : Type _} (f : Nat → Except (List Char) A)
    (es : Nat → List Char) :
    ∀ (remaining attempt : Nat) (d : Rat),
      (∀ i, attempt ≤ i → i ≤ attempt + remaining →
        f i = .error (es i) ∧ isNonRetryable (es i) = false) →
      retryGo f attempt remaining d =
        ⟨.error (es (attempt + remaining)),
         expectedDelays es attempt remaining d, remaining + 1⟩ := by
  intro remaining
  induction remaining with
  | zero =>
    intro attempt d h
    obtain ⟨hf, hnr⟩ := h attempt le_rfl (by omega)
    rw [retryGo, hf]
    simp [hnr, expectedDelays]
  | succ r ih =>
    intro attempt d h
    obtain ⟨hf, hnr⟩ := h attempt le_rfl (by omega)
    have hrest := ih (attempt + 1) (d * (3 / 2))
      (fun i h1 h2 => h i (by omega) (by omega))
    have hidx : attempt + 1 + r = attempt + (r + 1) := by omega
    rw [retryGo, hf]
    simp only [hnr, Bool.false_eq_true, if_false]
    rw [hrest, hidx]
    rfl

theorem expectedDelays_length (es : Nat → List Char) :
    ∀ (remaining attempt : Nat) (d : Rat),
      (expectedDelays es attempt remaining d).length = remaining := by
  intro remaining
  induction remaining with
  | zero => intro attempt d; rfl
  | succ r ih =>
    intro attempt d
    simp [expectedDelays, ih]

theorem expectedDelays_getD (es : Nat → List Char) :
    ∀ (remaining attempt : Nat) (d : Rat) (k : Nat), k < remaining →
      (expectedDelays es attempt remaining d).getD k 0 =
        delayMult (es (attempt + k)) * (d * (3 / 2) ^ k) := by
  intro remaining
  induction remaining with
  | zero => intro attempt d k hk; omega
  | succ r ih =>
    intro attempt d k hk
    cases k with
    | zero => simp [expectedDelays]
    | succ k =>
      have hrec := ih (attempt + 1) (d * (3 / 2)) k (by omega)
      simp only [expectedDelays, List.getD_cons_succ, hrec]
      have hidx : attempt + 1 + k = attempt + (k + 1) := by omega
      rw [hidx]
      ring

/-- Claim C3: the retry wrapper makes at most `max_retries` additional
attempts after the first failure (at most `max_retries + 1` attempts);
errors matching the non-retryable keyword classes are re-raised immediately
on the first attempt; when every attempt fails with a retryable error, the
last error is raised after exactly `max_retries + 1` attempts, with
`max_retries` sleeps whose k-th delay is the class multiplier of the k-th
error times the base delay grown by 1.5x per attempt; the multiplier is 3
for rate-limit errors, 2 for 5xx server errors, and 1 for network/timeout
and unclassified errors. -/
theorem retry_policy_behavior :
    (∀ (A : Type) (f : Nat → Except (List Char) A) (maxRetries : Nat)
        (d : Rat),
        (handleApiErrorWithRetry f maxRetries d).attempts ≤ maxRetries + 1) ∧
    (∀ (A : Type) (f : Nat → Except (List Char) A) (maxRetries : Nat)
        (d : Rat) (e : List Char),
        f 0 = .error e → isNonRetryable e = true →
        handleApiErrorWithRetry f maxRetries d = ⟨.error e, [], 1⟩) ∧
    (∀ (A : Type) (f : Nat → Except (List Char) A) (es : Nat → List Char)
        (maxRetries : Nat) (d : Rat),
        (∀ i, i ≤ maxRetries →
          f i = .error (es i) ∧ isNonRetryable (es i) = false) →
        (handleApiErrorWithRetry f maxRetries d).result =
          .error (es maxRetries) ∧
        (handleApiErrorWithRetry f maxRetries d).attempts = maxRetries + 1 ∧
        (handleApiErrorWithRetry f maxRetries d).delays.length = maxRetries ∧
        (∀ k, k < maxRetries →
          (handleApiErrorWithRetry f maxRetries d).delays.getD k 0 =
            delayMult (es k) * (d * (3 / 2) ^ k))) ∧
    (∀ e : List Char,
        ((strHas (pyLower e) "rate limit".toList = true ∨
            strHas (pyLower e) "429".toList = true) → delayMult e = 3) ∧
        (strHas (pyLower e) "rate limit".toList = false →
          strHas (pyLower e) "429".toList = false →
          strHas (pyLower e) "timeout".toList = false →
          strHas (pyLower e) "network".toList = false →
          (strHas (pyLower e) "500".toList = true ∨
            strHas (pyLower e) "502".toList = true ∨
            strHas (pyLower e) "503".toList = true) → delayMult e = 2) ∧
        (strHas (pyLower e) "rate limit".toList = false →
          strHas (pyLower e) "429".toList = false →
          (strHas (pyLower e) "timeout".toList = true ∨
            strHas (pyLower e) "network".toList = true) → delayMult e = 1) ∧
        (strHas (pyLower e) "rate limit".toList = false →
          strHas (pyLower e) "429".toList = false →
          strHas (pyLower e) "timeout".toList = false →
          strHas (pyLower e) "network".toList = false →
          strHas (pyLower e) "500".toList = false →
          strHas (pyLower e) "502".toList = false →
          strHas (pyLower e) "503".toList = false → delayMult e = 1)) := by
  refine ⟨?_, ?_, ?_, ?_⟩
  · intro A f maxRetries d
    exact retryGo_attempts_le f maxRetries 0 d
  · intro A f maxRetries d e hf hnr
    unfold handleApiErrorWithRetry
    rw [retryGo, hf]
    simp [hnr]
  · intro A f es maxRetries d h
    have := retryGo_allfail f es maxRetries 0 d
      (fun i h1 h2 => h i (by omega))
    unfold handleApiErrorWithRetry
    rw [this]
    refine ⟨by simp, rfl, expectedDelays_length es maxRetries 0 d, ?_⟩
    intro k hk
    simpa using expectedDelays_getD es maxRetries 0 d k hk
  · intro e
    refine ⟨?_, ?_, ?_, ?_⟩
    · intro h
      rcases h with h | h <;> (rw [delayMult, h]; simp)
    · intro h1 h2 h3 h4 h
      rw [delayMult, h1, h2, h3, h4]
      rcases h with h | h | h <;> (rw [h]; simp)
    · intro h1 h2 h
      rw [delayMult, h1, h2]
      rcases h with h | h <;> (rw [h]; simp)
    · intro h1 h2 h3 h4 h5 h6 h7
      rw [delayMult, h1, h2, h3, h4, h5, h6, h7]
      simp

/-- Witness for C3: a permanently failing network-timeout call is retried
twice with delays 1 and 1.5 and the last error raised after 3 attempts,
while a 404 error is re-raised immediately without any retry. -/
theorem retry_policy_behavior_witness :
    (handleApiErrorWithRetry
        (fun _ => (.error "network timeout".toList : Except (List Char) Unit))
        2 1).attempts = 3 ∧
    (handleApiErrorWithRetry
        (fun _ => (.error "network timeout".toList : Except (List Char) Unit))
        2 1).delays.getD 0 0 = 1 ∧
    (handleApiErrorWithRetry
        (fun _ => (.error "network timeout".toList : Except (List Char) Unit))
        2 1).delays.getD 1 0 = 3 / 2 ∧
    handleApiErrorWithRetry
        (fun _ => (.error "404 not found".toList : Except (List Char) Unit))
        2 1 = ⟨.error "404 not found".toList, [], 1⟩ := by
  have h3 := retry_policy_behavior.2.2.1 Unit
    (fun _ => (.error "network timeout".toList : Except (List Char) Unit))
    (fun _ => "network timeout".toList) 2 1
    (fun i _ =>
      ⟨rfl, (by decide : isNonRetryable "network timeout".toList = false)⟩)
  have h2 := retry_policy_behavior.2.1 Unit
    (fun _ => (.error "404 not found".toList : Except (List Char) Unit))
    2 1 "404 not found".toList rfl (by decide)
  refine ⟨h3.2.1, ?_, ?_, h2⟩
  · have := h3.2.2.2 0 (by omega)
    rw [this]
    norm_num
    decide
  · have := h3.2.2.2 1 (by omega)
    rw [this]
    norm_num
    decide

/-- Witness for C2: a breaker with threshold 2 opened by two failures at
times 0 and 10 rejects a call at time 30 (window 60), and a later call at
time 100 goes through half-open; a closed breaker resets on success and
counts on failure. -/
theorem circuit_breaker_state_machine_witness :
    (failCalls (CircuitBreaker.init 2 60) [0, 10]).state = CBState.opened ∧
    ((failCalls (CircuitBreaker.init 2 60) [0, 10]).call 30 false).2 =
      CallOutcome.rejected ∧
    (CircuitBreaker.preCall
      { failureThreshold := 2, recoveryTimeout := 60, failureCount := 2,
        lastFailureTime := some 10, state := .opened } 100).1.state =
      CBState.halfOpen ∧
    ((CircuitBreaker.init 2 60).call 7 true).1.failureCount = 0 ∧
    ((CircuitBreaker.init 2 60).call 7 false).1.failureCount = 1 := by
  have h := circuit_breaker_state_machine
  have h1 := h.1 2 60 [0, 10] 10 30 false (by norm_num) (by simp) rfl
  refine ⟨h1.1, (h1.2.2 (by norm_num)).1, ?_, ?_, ?_⟩
  · exact (h.2.1 _ 100 10 false rfl rfl (by norm_num)).1
  · exact (h.2.2.1 (CircuitBreaker.init 2 60) 7 (by decide)).1
  · have := (h.2.2.2 (CircuitBreaker.init 2 60) 7 (by decide)).1
    simpa [CircuitBreaker.init] using this

/-- Witness for C10: concrete applications of the constructor theorem — an
out-of-range humidity and an inverted temperature pair are both rejected,
and an accepted record carries its bounds. -/
theorem constructors_enforce_bounds_witness :
    (∃ e, mkWeatherData [] 20 20 150 0 0 1013 10 0 [] [] 0 [] =
      Except.error e) ∧
    (∃ e, mkForecastDay 0 10 20 [] 0 0 50 = Except.error e) ∧
    (∀ w, mkWeatherData [] 25 27 60 10 180 1013 10 5 [] [] 0 [] = .ok w →
      0 ≤ w.humidity ∧ w.humidity ≤ 100 ∧ 0 ≤ w.windSpeed ∧
      0 ≤ w.windDirection ∧ w.windDirection ≤ 360) :=
  ⟨constructors_enforce_bounds.2.1 [] 20 20 150 0 0 1013 10 0 [] [] 0 []
      (Or.inl (by norm_num)),
   constructors_enforce_bounds.2.2.2 0 10 20 [] 0 0 50 (Or.inl (by norm_num)),
   fun w h => constructors_enforce_bounds.1 [] 25 27 60 10 180 1013 10 5 [] [] 0 [] w h⟩

/-! ## Theorems: current-weather orchestrator (claim C1) -/

/-- Counterexample for C1 as stated: a well-formed openweathermap payload
whose humidity is 150 makes the request fail with a `WeatherError` — the
`WeatherData` constructor raises inside the converter before the validator
or sanitizer can run, so the out-of-range record is rejected, not
sanitized. -/
theorem current_weather_rejects_high_humidity :
    getCurrentWeather
      { resolvedLocation := .ok "beijing".toList,
        units := "metric".toList, cached := none,
        apiResult := .ok { temp := 25, feelsLike := 25,
                           humidity := 150, windSpeed := 5,
                           windDeg := 90, pressure := 1013,
                           visibility := 10000,
                           description := "sunny".toList,
                           icon := "01d".toList },
        staleFallback := none } 0 =
      .weatherError ('湿' :: '度' :: []) := rfl

/-- Claim C1 (amended): on a successful API fetch, the orchestrator runs
the validator and serves the sanitized record only for payloads the
`WeatherData` constructor accepts (humidity in `[0,100]`, wind speed
non-negative, wind direction in `[0,360]`) — for those, out-of-range
temperature or pressure is corrected and the record returned; payloads
outside the constructor's ranges make the conversion raise and the request
fails with a `WeatherError` (the data is rejected). -/
theorem current_weather_sanitize_or_reject (env : CurrentEnv)
    (loc : List Char) (p : OwmCurrentPayload) (ts : Int)
    (hloc : env.resolvedLocation = .ok loc)
    (hcache : env.cached = none)
    (happ : env.apiResult = .ok p) :
    ((0 ≤ p.humidity ∧ p.humidity ≤ 100) → ¬ p.windSpeed < 0 →
      (0 ≤ p.windDeg ∧ p.windDeg ≤ 360) →
      ∃ w, convertOwmCurrent p loc env.units ts = .ok w ∧
        getCurrentWeather env ts =
          .ok (if validateWeatherData w then w
               else sanitizeWeatherData w)) ∧
    ((¬(0 ≤ p.humidity ∧ p.humidity ≤ 100) ∨ p.windSpeed < 0 ∨
        ¬(0 ≤ p.windDeg ∧ p.windDeg ≤ 360)) →
      ∃ e, getCurrentWeather env ts = .weatherError e) := by
  constructor
  · intro h1 h2 h3
    have hconv : ∃ w, convertOwmCurrent p loc env.units ts = .ok w := by
      unfold convertOwmCurrent mkWeatherData
      rw [if_pos h1, if_neg h2, if_pos h3]
      exact ⟨_, rfl⟩
    obtain ⟨w, hw⟩ := hconv
    refine ⟨w, hw, ?_⟩
    simp only [getCurrentWeather, hloc, hcache, happ, hw]
  · intro h
    have hconv : ∃ e, convertOwmCurrent p loc env.units ts = .error e := by
      unfold convertOwmCurrent mkWeatherData
      split_ifs with g1 g2 g3
      · exact ⟨_, rfl⟩
      · exfalso
        rcases h with h | h | h
        · exact h g1
        · exact g2 h
        · exact h g3
      · exact ⟨_, rfl⟩
      · exact ⟨_, rfl⟩
    obtain ⟨e, he⟩ := hconv
    refine ⟨e, ?_⟩
    simp only [getCurrentWeather, hloc, hcache, happ, he]

/-- Witness for C1 (amended): the demonstration payload with temperature
100 °C converts successfully and the orchestrator returns the validated or
sanitized record. -/
theorem current_weather_sanitize_witness :
    ∃ w, convertOwmCurrent sanitizeDemoPayload "beijing".toList
        sanitizeDemoEnv.units 0 = .ok w ∧
      getCurrentWeather sanitizeDemoEnv 0 =
        .ok (if validateWeatherData w then w else sanitizeWeatherData w) :=
  (current_weather_sanitize_or_reject sanitizeDemoEnv "beijing".toList
    sanitizeDemoPayload 0 rfl rfl rfl).1 (by decide) (by decide) (by decide)

/-! ## Theorems: forecast orchestrator (claim C8) -/

/-- Claim C8: a day count outside `[1,16]` makes `get_forecast` fail
immediately with the day-range error (a `WeatherError`, distinct from the
`APIError`/`LocationError` outcomes) and an empty I/O trace — before any
location resolution, cache access or API call, hence never retried and
never degraded to cached data; for a day count inside `[1,16]` with a
working API (cache miss, in-range payload) it returns at most `days`
entries in ascending date order. -/
theorem get_forecast_validation_and_bounds :
    (∀ (env : ForecastEnv) (days gen : Int), days ≤ 0 ∨ days > 16 →
      getForecast env days gen = (.weatherError forecastDaysRangeMsg, [])) ∧
    (∀ (env : ForecastEnv) (days gen : Int) (loc : List Char)
        (raw : List OwmForecastItem),
        1 ≤ days → days ≤ 16 →
        env.resolvedLocation = .ok loc →
        env.cached = none →
        env.apiResult = .ok raw →
        (∀ (l : List (List Char)) (x : List Char),
          x ∈ env.setOrder l ↔ x ∈ l) →
        (∀ it ∈ raw, (0 : Rat) ≤ it.humidity ∧ it.humidity ≤ 100) →
        (∀ it ∈ raw, (0 : Rat) ≤ it.pop ∧ it.pop ≤ 1) →
        ∃ fd, getForecast env days gen =
            (.ok fd, [.resolveLocation, .readPrefs, .cacheRead, .apiCall,
              .cacheWrite]) ∧
          (fd.days.length : Int) ≤ days ∧
          (fd.days.map (fun day => day.date)).Pairwise
            (fun a b => a ≤ b)) := by
  constructor
  · intro env days gen h
    unfold getForecast
    rw [if_pos h]
  · intro env days gen loc raw hd1 hd2 hloc hcache happ hset hhum hpop
    obtain ⟨fd, hconv, hlen, hpair, _⟩ := forecast_conversion_properties
      env.setOrder raw days.toNat loc env.units gen hset hhum hpop
    refine ⟨fd, ?_, ?_, hpair⟩
    · have hcond : ¬(days ≤ 0 ∨ days > 16) := by omega
      simp only [getForecast, if_neg hcond, hloc, hcache, happ, hconv]
    · omega

/-- Witness for C8: a day count of 17 is rejected with an empty trace, and
a 5-day request against the demonstration environment succeeds within
bounds. -/
theorem get_forecast_validation_witness :
    getForecast demoForecastEnv 17 0 =
      (.weatherError forecastDaysRangeMsg, []) ∧
    getForecast demoForecastEnv 0 0 =
      (.weatherError forecastDaysRangeMsg, []) ∧
    ∃ fd, getForecast demoForecastEnv 5 0 =
        (.ok fd, [.resolveLocation, .readPrefs, .cacheRead, .apiCall,
          .cacheWrite]) ∧
      (fd.days.length : Int) ≤ 5 ∧
      (fd.days.map (fun day => day.date)).Pairwise (fun a b => a ≤ b) :=
  ⟨get_forecast_validation_and_bounds.1 demoForecastEnv 17 0
      (Or.inr (by norm_num)),
   get_forecast_validation_and_bounds.1 demoForecastEnv 0 0
      (Or.inl (by norm_num)),
   get_forecast_validation_and_bounds.2 demoForecastEnv 5 0
      "beijing".toList
      [{ date := 0, temp := 20, humidity := 50, windSpeed := 3,
         condition := "sunny".toList, pop := 0 }]
      (by norm_num) (by norm_num) rfl rfl rfl
      (fun l x => fsDedup_mem l x) (by decide) (by decide)⟩

end Tianqi
